import Mathlib

/-!
Verification development for the `ai-tasks-board` runtime.

This file gives a shallow embedding, in Lean 4, of the core of the
repository's Python runtime:

* `board_md.py` — the board document model (region markers, parsing,
  task-block insert/replace, history snapshot paths), and
* `sessions/codex.py` — the session reconciliation engine (redaction,
  tokenization, matching thresholds, the sync loop), together with
* `sessions/state.py` — the persisted sessions-state record.

Python strings are modelled as `List Char` (Python string indices are
code-point indices, exactly matching `List Char` positions).  Python
`str.lower` is modelled by ASCII lowercasing (`Char.toLower`), which agrees
with Python on every input used in this development.  Python floats are
modelled as exact rationals `ℚ`; `int(x)` on a non-negative float is
`Int.floor`.  Fallible operations return `Except`/`Option`.  External
capabilities (the AI model calls, the clock, fresh UUIDs, ISO-8601
timestamp parsing from the `datetime` stdlib) are abstracted as explicit
oracle parameters, as the specification designates them out of scope.
-/

namespace AiTasks

set_option maxRecDepth 100000

/-- Python strings as lists of unicode code points. -/
abbrev Str := List Char

/-- The ASCII whitespace characters recognized by Python `str.strip` /
`str.lstrip` and by the regex class `\s` (restricted to ASCII, which is all
this code base ever feeds them). -/
def pyIsSpace (c : Char) : Bool :=
  c = ' ' || c = '\t' || c = '\n' || c = '\x0d' || c = '\x0b' || c = '\x0c'

/-- Python `s.lstrip()`. -/
def pyLstrip (s : Str) : Str := s.dropWhile pyIsSpace

/-- Python `s.strip()`. -/
def pyStrip (s : Str) : Str :=
  ((s.dropWhile pyIsSpace).reverse.dropWhile pyIsSpace).reverse

/-- Python `s.lower()` (ASCII case mapping). -/
def toLowerStr (s : Str) : Str := s.map Char.toLower

/-- Auxiliary scan for `findSub`: first index (counting from `i`) at which
`pat` occurs in `s`. -/
def findSubAux (pat : Str) : Str → Nat → Option Nat
  | [], i => if pat.isPrefixOf ([] : Str) then some i else none
  | c :: t, i =>
    if pat.isPrefixOf (c :: t) then some i else findSubAux pat t (i + 1)

/-- Python `s.find(pat)` (first occurrence; `none` models `-1`). -/
def findSub (s pat : Str) : Option Nat := findSubAux pat s 0

/-- Python `s.find(pat, start)`. -/
def findSubGe (s pat : Str) (start : Nat) : Option Nat :=
  (findSubAux pat (s.drop start) 0).map (· + start)

/-- Predicate: `pat` occurs in `s` at index `i`. -/
def occursAt (s pat : Str) (i : Nat) : Bool := pat.isPrefixOf (s.drop i)

/-- Python `s.rfind(pat)` (last occurrence; `none` models `-1`). -/
def rfindSub (s pat : Str) : Option Nat :=
  ((List.range (s.length + 1)).filter (fun i => occursAt s pat i)).getLast?

/-- Python `pat in s`. -/
def hasSub (s pat : Str) : Bool := (findSub s pat).isSome

/-- Python `s.endswith("\n")` restricted to a single character. -/
def endsWithChar (s : Str) (c : Char) : Bool := s.getLast? = some c

/-- Python `s.splitlines()`: split on `\n`, `\r`, `\r\n`; a trailing line
break produces no trailing empty line; the empty string yields no lines. -/
def pySplitlinesAux : Str → Str → List Str
  | [], cur => [cur.reverse]
  | '\x0d' :: '\n' :: t, cur =>
    cur.reverse :: (match t with | [] => [] | _ :: _ => pySplitlinesAux t [])
  | '\x0d' :: t, cur =>
    cur.reverse :: (match t with | [] => [] | _ :: _ => pySplitlinesAux t [])
  | '\n' :: t, cur =>
    cur.reverse :: (match t with | [] => [] | _ :: _ => pySplitlinesAux t [])
  | c :: t, cur => pySplitlinesAux t (c :: cur)

/-- Python `s.splitlines()`. -/
def pySplitlines (s : Str) : List Str :=
  match s with
  | [] => []
  | _ :: _ => pySplitlinesAux s []

/-- Python `s.replace("\r\n", "\n")` (left-to-right, non-overlapping). -/
def replaceCrlf : Str → Str
  | '\x0d' :: '\n' :: t => '\n' :: replaceCrlf t
  | c :: t => c :: replaceCrlf t
  | [] => []

/-- Python `s.split(sep)` for a single-character separator (explicit
recursion, used for offset bookkeeping proofs). -/
def splitNl : Str → List Str
  | [] => [[]]
  | c :: t =>
    if c = '\n' then [] :: splitNl t
    else
      match splitNl t with
      | l :: ls => (c :: l) :: ls
      | [] => [[c]]

/-- Match a literal string at the head of `s`, returning the rest. -/
def stripLit (lit : Str) (s : Str) : Option Str :=
  if lit.isPrefixOf s then some (s.drop lit.length) else none

/-- Case-insensitive variant of `stripLit` (models a regex literal under
`re.IGNORECASE`). -/
def stripLitCi (lit : Str) (s : Str) : Option Str :=
  if (toLowerStr lit).isPrefixOf (toLowerStr s) then some (s.drop lit.length)
  else none

/-- Python `"sep".join(xs)`. -/
def joinStr (sep : Str) (xs : List Str) : Str := List.intercalate sep xs

/-! ## `board_md.py` — constants and the scaffold -/

def AUTO_BEGIN : Str := "<!-- AI-TASKS:BEGIN -->".data

def AUTO_END : Str := "<!-- AI-TASKS:END -->".data

def STATUSES : List Str :=
  ["Unassigned".data, "Todo".data, "Doing".data, "Review".data, "Done".data]

/-- Embeds `board_md.normalize_status`. -/
def normalize_status (s : Str) : Option Str :=
  let t := pyStrip s
  if STATUSES.contains t then some t else none

/-- Embeds `board_md.build_default_board_markdown`. -/
def build_default_board_markdown : Str :=
  joinStr ['\n']
    [ "---".data
    , "schema: ai-tasks-board/v1".data
    , "board_id: ai-tasks-board".data
    , "statuses: [Unassigned, Todo, Doing, Review, Done]".data
    , "---".data
    , ([] : Str)
    , "# AI Tasks Board".data
    , ([] : Str)
    , AUTO_BEGIN
    , "## Unassigned".data
    , ([] : Str)
    , "## Todo".data
    , ([] : Str)
    , "## Doing".data
    , ([] : Str)
    , "## Review".data
    , ([] : Str)
    , "## Done".data
    , AUTO_END
    , ([] : Str)
    ]

/-! ## `board_md.py` — errors

The Python code raises `ValueError` with three distinct messages; the
specification's error taxonomy names the first two `MalformedBoardError`
and `TaskNotFoundError`.  We model the three raise sites as distinct
constructors. -/

inductive BoardErr where
  /-- Models `ValueError("Board is missing auto area markers ...")` from
  `find_auto_area` — the spec's `MalformedBoardError`. -/
  | malformed
  /-- Models the task-not-found `ValueError` from
  `replace_task_block` — the spec's `TaskNotFoundError`. -/
  | taskNotFound (u : Str)
  /-- Models the missing-status-section `ValueError` from
  `_find_insertion_point`. -/
  | missingSection (s : Str)
deriving DecidableEq

/-- Embeds `board_md.find_auto_area`: offsets of the managed region (just after the
BEGIN marker, through the start of the END marker). -/
def find_auto_area (content : Str) : Except BoardErr (Nat × Nat) :=
  match findSub content AUTO_BEGIN, findSub content AUTO_END with
  | some begin_idx, some end_idx =>
    if end_idx ≤ begin_idx then .error .malformed
    else .ok (begin_idx + AUTO_BEGIN.length, end_idx)
  | none, _ => .error .malformed
  | some _, none => .error .malformed

/-! ## `board_md.py` — field-line parsers

The three helpers `_parse_title`, `_parse_tags`, `_parse_status_field` each
scan a block's lines with an anchored regex.  In each regex the tail
`\s*(.+)\s*$` makes the capture group equal the rest of the line after the
leading whitespace (greedy `.+` swallows trailing whitespace; when the rest
is all whitespace, backtracking leaves a single whitespace character in the
group).  Since every consumer strips or splits-and-strips the group, the
observable value is determined by the un-trimmed rest of the line, which is
what the embeddings below return. -/

/-- Matches a line against the title regex of `board_md._parse_title`,
returning the rest of the line after the callout tag when the regex matches
with a non-empty group. -/
def titleLineVal (line : Str) : Option Str := do
  let s1 ← stripLit ">".data line
  let s2 := s1.dropWhile pyIsSpace
  let s3 ← stripLit "[!".data s2
  let inner := s3.takeWhile (fun c => c ≠ ']')
  if inner.isEmpty then none else
  let s4 ← stripLit "]".data (s3.drop inner.length)
  if s4.isEmpty then none else some s4

/-- Embeds `board_md._parse_title`. -/
def parseTitleLines : List Str → Str
  | [] => "(Untitled)".data
  | l :: t =>
    match titleLineVal l with
    | some rest => pyStrip rest
    | none => parseTitleLines t

/-- Embeds `board_md._parse_title` on a whole block. -/
def parseTitle (block : Str) : Str := parseTitleLines (pySplitlines block)

/-- Matches a line against a `^>\s*<field>::\s*(.+)\s*$` regex (with
`re.IGNORECASE`), returning the rest of the line after `<field>::` when the
regex matches with a non-empty group. -/
def fieldLineVal (field : Str) (line : Str) : Option Str := do
  let s1 ← stripLit ">".data line
  let s2 := s1.dropWhile pyIsSpace
  let s3 ← stripLitCi (field ++ "::".data) s2
  if s3.isEmpty then none else some s3

/-- Splits a tag value on ASCII and fullwidth commas, strips each part and
drops the empty ones — the loop body of `board_md._parse_tags`. -/
def splitTags (raw : Str) : List Str :=
  ((raw.splitOnP (fun c => c = ',' || c = '，')).map pyStrip).filter
    (fun t => ¬ t.isEmpty)

/-- Embeds `board_md._parse_tags`. -/
def parseTagsLines : List Str → List Str
  | [] => []
  | l :: t =>
    match fieldLineVal "tags".data l with
    | some raw => splitTags raw
    | none => parseTagsLines t

/-- Embeds `board_md._parse_tags` on a whole block. -/
def parseTags (block : Str) : List Str := parseTagsLines (pySplitlines block)

/-- Embeds `board_md._parse_status_field` (the first matching line decides;
a non-normalizable value yields `none`, not a further scan). -/
def parseStatusFieldLines : List Str → Option Str
  | [] => none
  | l :: t =>
    match fieldLineVal "status".data l with
    | some raw => normalize_status raw
    | none => parseStatusFieldLines t

/-- Embeds `board_md._parse_status_field` on a whole block. -/
def parseStatusField (block : Str) : Option Str :=
  parseStatusFieldLines (pySplitlines block)

/-! ## `board_md.py` — parsing the board -/

/-- A task block as produced by `board_md.parse_board` (the Python
`TaskBlock` dataclass). -/
structure TaskBlock where
  uuid : Str
  title : Str
  status : Str
  tags : List Str
  raw : Str
  tStart : Nat
  tEnd : Nat
deriving DecidableEq

/-- A status heading found inside the managed region. -/
structure Heading where
  status : Str
  hStart : Nat
  hEnd : Nat
deriving DecidableEq

/-- A section as produced by `board_md.parse_board` (the Python `Section`
dataclass). -/
structure BSection where
  status : Str
  heading_start : Nat
  heading_end : Nat
  section_start : Nat
  section_end : Nat
  tasks : List TaskBlock
deriving DecidableEq

/-- The result of `board_md.parse_board` (the Python `ParsedBoard`
dataclass); `sections` models the insertion-ordered Python dict. -/
structure ParsedBoard where
  content : Str
  auto_start : Nat
  auto_end : Nat
  sections : List (Str × BSection)
deriving DecidableEq

/-- Python-dict assignment `m[k] = v`: overwrite in place, else append. -/
def dictUpsert (m : List (Str × BSection)) (k : Str) (v : BSection) :
    List (Str × BSection) :=
  match m with
  | [] => [(k, v)]
  | (k0, v0) :: rest =>
    if k0 = k then (k, v) :: rest else (k0, v0) :: dictUpsert rest k v

/-- Python-dict lookup `m.get(k)`. -/
def dictGet (m : List (Str × BSection)) (k : Str) : Option BSection :=
  match m with
  | [] => none
  | (k0, v0) :: rest => if k0 = k then some v0 else dictGet rest k

/-- One line of the heading scan of `board_md.parse_board`: a line whose
left-stripped form starts with the heading prefix and names a status. -/
def headingOfLine (line : Str) (offset : Nat) : Option Heading :=
  let trimmed := pyLstrip line
  if ("## ".data).isPrefixOf trimmed then
    match normalize_status (pyStrip (trimmed.drop 3)) with
    | some st =>
      match findSub line "## ".data with
      | some k => some ⟨st, offset + k, offset + line.length⟩
      | none => none
    | none => none
  else none

/-- The heading scan of `board_md.parse_board`: walk the lines of the
managed region, tracking absolute offsets, and collect the status
headings. -/
def scanHeadings : List Str → Nat → List Heading
  | [], _ => []
  | line :: rest, offset =>
    (headingOfLine line offset).toList ++
      scanHeadings rest (offset + line.length + 1)

/-- The character class `[0-9a-fA-F-]` of `_TASK_BEGIN_RE`. -/
def isHexDash (c : Char) : Bool :=
  c.isDigit || ('a' ≤ c && c ≤ 'f') || ('A' ≤ c && c ≤ 'F') || c = '-'

/-- Tries to match `board_md._TASK_BEGIN_RE` at the head of `s`, returning
the captured identifier.  The regex
`<!--\s*AI-TASKS:TASK\s+([0-9a-fA-F-]{8,})\s+BEGIN\s*-->` never needs
backtracking: each greedy run is over a class disjoint from the character
that must follow it, so the linear scan below is exactly its semantics. -/
def matchTaskBegin (s : Str) : Option Str := do
  let s1 ← stripLit "<!--".data s
  let s2 := s1.dropWhile pyIsSpace
  let s3 ← stripLit "AI-TASKS:TASK".data s2
  let w1 := s3.takeWhile pyIsSpace
  if w1.isEmpty then none else
  let s4 := s3.drop w1.length
  let u := s4.takeWhile isHexDash
  if u.length < 8 then none else
  let s5 := s4.drop u.length
  let w2 := s5.takeWhile pyIsSpace
  if w2.isEmpty then none else
  let s6 := s5.drop w2.length
  let s7 ← stripLit "BEGIN".data s6
  let s8 := s7.dropWhile pyIsSpace
  let _ ← stripLit "-->".data s8
  some u

/-- All matches of `_TASK_BEGIN_RE` in document order, as (start index,
captured identifier) pairs.  `re.finditer` scans non-overlapping matches,
but two matches of this regex can never overlap (no `<` occurs past the
first character of a match), so trying every start position is equivalent. -/
def taskBeginsAux : Str → Nat → List (Nat × Str)
  | [], _ => []
  | c :: t, i =>
    match matchTaskBegin (c :: t) with
    | some u => (i, u) :: taskBeginsAux t (i + 1)
    | none => taskBeginsAux t (i + 1)

/-- All matches of `_TASK_BEGIN_RE` in `s`. -/
def taskBegins (s : Str) : List (Nat × Str) := taskBeginsAux s 0

/-- The trailing-newline consumption in `board_md.parse_board` (the
`while ... break` loop runs at most one iteration and consumes at most two
newline characters). -/
def expandNl (content : Str) (e : Nat) : Nat :=
  if e < content.length ∧ content.getD e ' ' = '\n' then
    if e + 1 < content.length ∧ content.getD (e + 1) ' ' = '\n' then e + 2
    else e + 1
  else e

/-- The end-marker string of a task identifier. -/
def endMarkerFor (tuid : Str) : Str :=
  "<!-- AI-TASKS:TASK ".data ++ tuid ++ " END -->".data

/-- The loop body of the per-section task scan of `board_md.parse_board`,
for one `_TASK_BEGIN_RE` match `p` = (relative start, identifier). -/
def taskOfBegin (content : Str) (section_start : Nat) (section_text : Str)
    (secStatus : Str) (p : Nat × Str) : Option TaskBlock :=
  if p.2.isEmpty then none else
  match findSubGe section_text (endMarkerFor p.2) p.1 with
  | none => none
  | some end_rel =>
    let end_abs := section_start + end_rel + (endMarkerFor p.2).length
    let end_exp := expandNl content end_abs
    let begin_abs := section_start + p.1
    let raw_block := (content.drop begin_abs).take (end_exp - begin_abs)
    some
      { uuid := toLowerStr p.2
      , title := parseTitle raw_block
      , status := (parseStatusField raw_block).getD secStatus
      , tags := parseTags raw_block
      , raw := raw_block
      , tStart := begin_abs
      , tEnd := end_exp }

/-- The per-section task scan of `board_md.parse_board`. -/
def scanTasks (content : Str) (section_start section_end : Nat)
    (secStatus : Str) : List TaskBlock :=
  (taskBegins ((content.drop section_start).take
      (section_end - section_start))).filterMap
    (taskOfBegin content section_start
      ((content.drop section_start).take (section_end - section_start))
      secStatus)

/-- The section-assembly loop of `board_md.parse_board`. -/
def buildSections (content : Str) (auto_end : Nat) :
    List Heading → List (Str × BSection) → List (Str × BSection)
  | [], acc => acc
  | h :: rest, acc =>
    let section_start := h.hEnd + 1
    let section_end :=
      match rest with
      | [] => auto_end
      | h2 :: _ => h2.hStart
    let tasks := scanTasks content section_start section_end h.status
    buildSections content auto_end rest
      (dictUpsert acc h.status
        ⟨h.status, h.hStart, h.hEnd, section_start, section_end, tasks⟩)

/-- Embeds `board_md.parse_board`. -/
def parse_board (content : Str) : Except BoardErr ParsedBoard := do
  let (auto_start, auto_end) ← find_auto_area content
  let auto := (content.drop auto_start).take (auto_end - auto_start)
  let lines := splitNl auto
  let headings := scanHeadings lines auto_start
  let sections := buildSections content auto_end headings []
  return ⟨content, auto_start, auto_end, sections⟩

/-! ## `board_md.py` — building and splicing task blocks -/

/-- Embeds `board_md.build_task_block`.  The fresh UUID (`uuid.uuid4()`)
and creation timestamp (`_utc_now_iso()`) are oracle parameters. -/
def build_task_block (task_uuid : Option Str) (title : Str) (status : Str)
    (tags : List Str) (body : Str) (sessions : List Str)
    (freshUuid created : Str) : Str :=
  let tuid := toLowerStr
    (match task_uuid with
     | some u => if u.isEmpty then freshUuid else u
     | none => freshUuid)
  let st := (normalize_status status).getD "Unassigned".data
  let titleLine :=
    "> [!todo] ".data ++
      (if (pyStrip title).isEmpty then "(Untitled)".data else pyStrip title)
  let headLines :=
    ["<!-- AI-TASKS:TASK ".data ++ tuid ++ " BEGIN -->".data, titleLine,
     "> status:: ".data ++ st] ++
    (if tags.isEmpty then [] else ["> tags:: ".data ++ joinStr ", ".data tags]) ++
    (if sessions.isEmpty then []
     else ["> sessions:: ".data ++ joinStr ", ".data sessions]) ++
    ["> created:: ".data ++ created, ">".data]
  let bodyLines := (splitNl (replaceCrlf body)).map (fun bl =>
    if (pyStrip bl).isEmpty then ">".data else "> ".data ++ bl)
  let allLines :=
    headLines ++ bodyLines ++ ["<!-- AI-TASKS:TASK ".data ++ tuid ++ " END -->".data]
  joinStr ['\n'] allLines ++ ['\n']

/-- Embeds `board_md._find_insertion_point`. -/
def findInsertionPoint (parsed : ParsedBoard) (to_status : Str)
    (before_uuid : Option Str) : Except BoardErr Nat :=
  let status := (normalize_status to_status).getD "Unassigned".data
  match dictGet parsed.sections status with
  | none => .error (.missingSection status)
  | some sec =>
    let fromBefore :=
      match before_uuid with
      | some b =>
        if b.isEmpty then none
        else (sec.tasks.find? (fun t => t.uuid = toLowerStr b)).map
          (fun t => t.tStart)
      | none => none
    match fromBefore with
    | some i => .ok i
    | none =>
      match sec.tasks.getLast? with
      | some last => .ok last.tEnd
      | none => .ok sec.section_start

/-- Embeds `board_md.insert_task_block`. -/
def insert_task_block (content : Str) (to_status : Str)
    (before_uuid : Option Str) (block : Str) : Except BoardErr Str := do
  let parsed ← parse_board content
  let insert_at ← findInsertionPoint parsed to_status before_uuid
  let pre := content.take insert_at
  let suf := content.drop insert_at
  let needs_leading_nl := ¬ pre.isEmpty ∧ ¬ endsWithChar pre '\n'
  let needs_trailing_nl := ¬ endsWithChar block '\n'
  let final_block :=
    (if needs_leading_nl then ['\n'] else []) ++ block ++
      (if needs_trailing_nl then ['\n'] else [])
  return pre ++ final_block ++ suf

/-- First task with the given (lowercased) identifier, iterating sections in
dict order then tasks in document order — the lookup loop of
`board_md.replace_task_block`. -/
def findTaskInSections (sections : List (Str × BSection)) (tuid : Str) :
    Option TaskBlock :=
  match sections with
  | [] => none
  | (_, sec) :: rest =>
    match sec.tasks.find? (fun t => t.uuid = tuid) with
    | some t => some t
    | none => findTaskInSections rest tuid

/-- Embeds `board_md.replace_task_block`. -/
def replace_task_block (content : Str) (task_uuid : Str) (block : Str) :
    Except BoardErr Str := do
  let parsed ← parse_board content
  let tuid := toLowerStr task_uuid
  match findTaskInSections parsed.sections tuid with
  | none => .error (.taskNotFound task_uuid)
  | some existing =>
    let final_block := if endsWithChar block '\n' then block else block ++ ['\n']
    return content.take existing.tStart ++ final_block ++
      content.drop existing.tEnd

/-! ## `board_md.py` — history snapshots -/

/-- Python `s.replace(chr(92), "/")` (backslash normalization). -/
def replaceBackslash (s : Str) : Str :=
  s.map (fun c => if c = '\\' then '/' else c)

/-- Python `s.strip("/")`. -/
def stripSlashes (s : Str) : Str :=
  ((s.dropWhile (· = '/')).reverse.dropWhile (· = '/')).reverse

/-- The result of `re.sub(patMdEnd, stampRepl, base_name, flags=IGNORECASE)`
in `board_md.history_path_for_board`: replace a case-insensitive `.md`
suffix by `.<ts>.md`. -/
def stampMd (base ts : Str) : Str :=
  if 3 ≤ base.length ∧ toLowerStr (base.drop (base.length - 3)) = ".md".data
  then base.take (base.length - 3) ++ ['.'] ++ ts ++ ".md".data
  else base

/-- Embeds `board_md.history_path_for_board`. -/
def history_path_for_board (board_rel_path : Str) (ts : Str) : Str :=
  let norm := replaceBackslash
    (if board_rel_path.isEmpty then "Tasks/Boards/Board.md".data
     else board_rel_path)
  let base_name :=
    let b := ((norm.splitOn '/').getLast?).getD []
    if b.isEmpty then "Board.md".data else b
  let stamped := stampMd base_name ts
  match rfindSub norm "/Boards/".data with
  | some idx =>
    let pre := norm.take idx
    if pre.isEmpty then "History/Boards/".data ++ stamped
    else pre ++ "/History/Boards/".data ++ stamped
  | none =>
    let parent := joinStr ['/'] ((norm.splitOn '/').dropLast)
    if parent.isEmpty then "History/".data ++ stamped
    else parent ++ "/History/".data ++ stamped

/-- Embeds `board_md.board_path_in_vault` as a vault-relative path string
(`Path(*parts)` drops empty components). -/
def boardPathKey (board_rel_path : Str) : Str :=
  let rel := stripSlashes (replaceBackslash
    (if board_rel_path.isEmpty then "Tasks/Boards/Board.md".data
     else board_rel_path))
  joinStr ['/'] ((rel.splitOn '/').filter (fun p => ¬ p.isEmpty))

/-- A vault file system, keyed by vault-relative path. -/
abbrev Fs := List (Str × Str)

/-- Lookup in a vault file system. -/
def fsGet (fs : Fs) (k : Str) : Option Str :=
  match fs with
  | [] => none
  | (k0, v0) :: rest => if k0 = k then some v0 else fsGet rest k

/-- Embeds `board_md.write_board_with_history` as the ordered list of file
writes it performs (the filesystem-changing trace): first the snapshot of
the current board content (or the default scaffold when the board file does
not exist), then the new board content.  The timestamp `ts` (derived from
the clock) is an oracle parameter. -/
def write_board_with_history (fs : Fs) (board_rel_path : Str) (ts : Str)
    (next_content : Str) : List (Str × Str) :=
  let boardKey := boardPathKey board_rel_path
  let current := (fsGet fs boardKey).getD build_default_board_markdown
  let hist_rel := history_path_for_board board_rel_path ts
  [(hist_rel, current), (boardKey, next_content)]

/-! ## `sessions/codex.py` — JSON values

Raw session logs are newline-delimited JSON.  We model parsed JSON values
directly (the `json.loads` result); a log line that is blank or fails to
parse is `none`. -/

inductive Json where
  | null
  | bool (b : Bool)
  | num (q : ℚ)
  | str (s : Str)
  | arr (xs : List Json)
  | obj (kvs : List (Str × Json))

/-- Python dict lookup `d.get(k)` on a decoded JSON object. -/
def jsonLookup (kvs : List (Str × Json)) (k : Str) : Option Json :=
  match kvs with
  | [] => none
  | (k0, v0) :: rest => if k0 = k then some v0 else jsonLookup rest k

/-- Python truthiness `bool(v)` of a decoded JSON value. -/
def jsonTruthy : Json → Bool
  | .null => false
  | .bool b => b
  | .num q => q ≠ 0
  | .str s => ¬ s.isEmpty
  | .arr xs => ¬ xs.isEmpty
  | .obj kvs => ¬ kvs.isEmpty

/-- Python `str(v)` of a decoded JSON value, used by the f-strings in
`codex.py`.  Exact for the string/None/bool cases, which are the only ones
real rollout data produces; numbers are rendered from the rational. -/
def pyStrOfJson : Json → Str
  | .null => "None".data
  | .bool true => "True".data
  | .bool false => "False".data
  | .str s => s
  | .num q => (toString q.num).data ++ (if q.den = 1 then [] else "/".data ++ (toString q.den).data)
  | .arr _ => "[...]".data
  | .obj _ => "{...}".data

/-! ## `sessions/codex.py` — redaction -/

/-- ASCII alphanumeric — the regex class `[A-Za-z0-9]`. -/
def isAlnumAscii (c : Char) : Bool :=
  c.isDigit || ('a' ≤ c && c ≤ 'z') || ('A' ≤ c && c ≤ 'Z')

/-- The class `[0-9A-Za-z\\-_]` of the `AIza` redaction pattern.  In the
source the raw string contains a doubled backslash, so `\\-_` is the range
U+005C–U+005F: backslash, `]`, `^`, `_`. -/
def aizaClass (c : Char) : Bool :=
  isAlnumAscii c || (92 ≤ c.toNat && c.toNat ≤ 95)

/-- Auxiliary bound for the termination of the scanning substitutions. -/
theorem lenDropDropWhileLt {a : Type} (cls : a → Bool) (lead : List a)
    (hl : lead ≠ []) (c : a) (t : List a) :
    (((c :: t).drop lead.length).dropWhile cls).length < (c :: t).length := by
  have h1 : (((c :: t).drop lead.length).dropWhile cls).length ≤
      ((c :: t).drop lead.length).length := (List.dropWhile_sublist cls).length_le
  have h3 : 0 < lead.length := List.length_pos.mpr hl
  simp only [List.length_drop, List.length_cons] at *
  omega

/-- Auxiliary bound for the termination of the maximal-run scan. -/
theorem lenDropWhileLtCons {a : Type} (cls : a → Bool) (c : a) (t : List a) :
    (t.dropWhile cls).length < (c :: t).length := by
  have h1 : (t.dropWhile cls).length ≤ t.length :=
    (List.dropWhile_sublist cls).length_le
  simp only [List.length_cons]
  omega

/-- One `re.sub` pass for a pattern of shape `<lead><class>+` with a
minimum run length (e.g. `sk-[A-Za-z0-9]{20,}`): left-to-right,
non-overlapping, greedy (the class never contains the character that
`lead` starts with, so a linear scan is the exact regex semantics). -/
def subTokenRun (lead : Str) (hl : lead ≠ []) (cls : Char → Bool)
    (minLen : Nat) (repl : Str) : Str → Str
  | [] => []
  | c :: t =>
    if lead.isPrefixOf (c :: t) then
      if minLen ≤ (((c :: t).drop lead.length).takeWhile cls).length then
        repl ++ subTokenRun lead hl cls minLen repl
          (((c :: t).drop lead.length).dropWhile cls)
      else c :: subTokenRun lead hl cls minLen repl t
    else c :: subTokenRun lead hl cls minLen repl t
termination_by s => s.length
decreasing_by
  · exact lenDropDropWhileLt cls lead hl _ _
  · simp only [List.length_cons]; omega
  · simp only [List.length_cons]; omega

/-- Embeds `codex._redact`: the three API-key-shaped substitutions, applied
in order. -/
def _redact (text : Str) : Str :=
  subTokenRun "AIza".data (by simp) aizaClass 20 "AIzaREDACTED".data
    (subTokenRun "ghp_".data (by simp) isAlnumAscii 20 "ghp_REDACTED".data
      (subTokenRun "sk-".data (by simp) isAlnumAscii 20 "sk-REDACTED".data
        text))

/-! ## `sessions/codex.py` — tokenization and similarity -/

/-- The class `[a-z0-9_\\-]` of the Latin/number token pattern (the doubled
backslash makes the literal backslash a member). -/
def latinClass (c : Char) : Bool :=
  ('a' ≤ c && c ≤ 'z') || c.isDigit || c = '_' || c.toNat = 92 || c = '-'

/-- The class `[\\u4e00-\\u9fff]` of the "CJK" pattern.  Because the raw
string doubles the backslashes, this is not the CJK block: it is the
literal characters `u`, `4`, `e`, `0`, `9`, `f` together with the range
U+0030–U+005C (digits, `:;<=>?@`, `A`–`Z`, `[`, backslash).  No CJK
character is a member. -/
def cjkClassAsWritten (c : Char) : Bool :=
  (0x30 ≤ c.toNat && c.toNat ≤ 0x5C) || c = 'u' || c = 'e' || c = 'f'

/-- Python `re.findall` for a pattern `<class>+`: the maximal runs of
class characters, in order. -/
def classRuns (cls : Char → Bool) : Str → List Str
  | [] => []
  | c :: t =>
    if cls c then (c :: t.takeWhile cls) :: classRuns cls (t.dropWhile cls)
    else classRuns cls t
termination_by s => s.length
decreasing_by
  · exact lenDropWhileLtCons cls _ _
  · simp only [List.length_cons]; omega

/-- Python `chunk[i:i+2] for i in range(len(chunk)-1)`. -/
def bigrams (s : Str) : List Str :=
  (List.range (s.length - 1)).map (fun i => (s.drop i).take 2)

/-- Order-preserving deduplication (the `seen` loop of `_tokenize`). -/
def dedupPreserve : List Str → List Str → List Str
  | [], _ => []
  | x :: t, seen =>
    if seen.contains x then dedupPreserve t seen
    else x :: dedupPreserve t (x :: seen)

/-- Embeds `codex._tokenize`, with the character classes exactly as the
source's (doubly-backslashed) raw strings denote them. -/
def _tokenize (s : Str) : List Str :=
  let sl := toLowerStr s
  let raw1 := (classRuns latinClass sl).filter (fun r => 2 ≤ r.length)
  let raw2 := (classRuns cjkClassAsWritten sl).flatMap (fun chunk =>
    if chunk.length = 1 then [chunk]
    else (if chunk.length ≤ 6 then [chunk] else []) ++ bigrams chunk)
  dedupPreserve (raw1 ++ raw2) []

/-- Embeds `codex._jaccard` (Python float division is exact rational
division here, written with `mkRat`). -/
def _jaccard (a_tokens b_tokens : List Str) : ℚ :=
  let a := dedupPreserve a_tokens []
  let b := dedupPreserve b_tokens []
  if a.isEmpty ∨ b.isEmpty then 0
  else
    let inter := (a.filter (fun x => b.contains x)).length
    let union := a.length + (b.filter (fun x => ¬ a.contains x)).length
    if union = 0 then 0 else mkRat inter union

/-! ## `sessions/codex.py` — session log reading -/

/-- Embeds `codex._is_harness_context_message`. -/
def _is_harness_context_message (text : Str) : Bool :=
  let t := pyStrip text
  t.isEmpty
  || ("# AGENTS.md instructions".data).isPrefixOf t
  || ("<environment_context>".data).isPrefixOf t
  || ("Read HEARTBEAT.md".data).isPrefixOf t
  || hasSub t "A new session was started via /new or /reset.".data

/-- A normalized session message (the Python `SessionMessage` dataclass). -/
structure SessionMessage where
  role : Str
  ts : Option Str
  text : Str
deriving DecidableEq

/-- The regex class `[0-9a-fA-F]`. -/
def isHexChar (c : Char) : Bool :=
  c.isDigit || ('a' ≤ c && c ≤ 'f') || ('A' ≤ c && c ≤ 'F')

/-- Checks the 8-4-4-4-12 hex shape of `_UUID_IN_FILENAME_RE`'s capture. -/
def uuidShape (s : Str) : Bool :=
  ((s.splitOn '-').map List.length) = [8, 4, 4, 4, 12] &&
    (s.filter (fun c => c ≠ '-')).all isHexChar

/-- Embeds `codex._extract_session_id`.  The pattern is of fixed length
(42 characters) and anchored at the end of the name, so the only possible
match site is the last 42 characters. -/
def _extract_session_id (name : Str) : Option Str :=
  if 42 ≤ name.length ∧ (".jsonl".data).isSuffixOf name ∧
      uuidShape ((name.drop (name.length - 42)).take 36)
  then some (toLowerStr ((name.drop (name.length - 42)).take 36))
  else none

/-- Embeds `codex._flatten_message_content` (`none` models a `None`
content). -/
def _flatten_message_content (content : Option Json) : Str :=
  match content with
  | some (.str s) => s
  | some (.arr items) =>
    joinStr ['\n'] (items.filterMap (fun item =>
      match item with
      | .obj kvs =>
        match jsonLookup kvs "text".data with
        | some (.str t) => if t.isEmpty then none else some t
        | _ => none
      | _ => none))
  | some (.obj kvs) =>
    match jsonLookup kvs "text".data with
    | some (.str t) => t
    | _ => []
  | _ => []

/-- The result quadruple of `codex.parse_rollout_messages`. -/
structure RolloutParse where
  meta : List (Str × Json)
  messages : List SessionMessage
  started_at : Option Str
  ended_at : Option Str

/-- The per-event body of `codex.parse_rollout_messages`: given one decoded
(JSON-object) event and the accumulated meta/messages/timestamps, produce
the updated accumulators.  `none` models the `AttributeError` Python raises
when a decoded line is not an object. -/
def prmStep (ev : Json) (meta : List (Str × Json))
    (msgs : List SessionMessage) (st en : Option Str) :
    Option (List (Str × Json) × List SessionMessage ×
      Option Str × Option Str) :=
  match ev with
  | .obj kvs =>
    let ts := jsonLookup kvs "timestamp".data
    let en1 := match ts with | some (.str v) => some v | _ => en
    let evType := jsonLookup kvs "type".data
    let payload :=
      match jsonLookup kvs "payload".data with
      | some p => if jsonTruthy p then p else .obj []
      | none => .obj []
    let isMeta := match evType with
      | some (.str v) => v == "session_meta".data
      | _ => false
    let isResp := match evType with
      | some (.str v) => v == "response_item".data
      | _ => false
    match payload with
    | .obj pkvs =>
      if isMeta then
        let st1 := match jsonLookup pkvs "timestamp".data with
          | some (.str v) => some v
          | _ => st
        let pick := fun (k : Str) => (jsonLookup pkvs k).getD Json.null
        let meta1 :=
          [ ("id".data, pick "id".data)
          , ("timestamp".data, pick "timestamp".data)
          , ("cwd".data, pick "cwd".data)
          , ("originator".data, pick "originator".data)
          , ("cli_version".data, pick "cli_version".data)
          , ("source".data, pick "source".data)
          , ("model_provider".data, pick "model_provider".data) ]
        some (meta1, msgs, st1, en1)
      else if ¬ isResp then some (meta, msgs, st, en1)
      else
        let isMsg := match jsonLookup pkvs "type".data with
          | some (.str v) => v == "message".data
          | _ => false
        if ¬ isMsg then some (meta, msgs, st, en1)
        else
          match jsonLookup pkvs "role".data with
          | some (.str role) =>
            if role = "user".data ∨ role = "assistant".data then
              let text := _flatten_message_content
                (jsonLookup pkvs "content".data)
              if text.isEmpty then some (meta, msgs, st, en1)
              else
                let tsv := match ts with
                  | some (.str v) => some v
                  | _ => none
                some (meta, ⟨role, tsv, _redact text⟩ :: msgs, st, en1)
            else some (meta, msgs, st, en1)
          | _ => some (meta, msgs, st, en1)
    | _ =>
      -- payload is a truthy non-dict: both branches skip the event
      -- (the dict instance checks fail).
      some (meta, msgs, st, en1)
  | _ => none

/-- The line loop of `codex.parse_rollout_messages`, folded over the
decoded lines (`none` models a blank or JSON-malformed line, which the
reader skips defensively). -/
def prmGo : List (Option Json) → List (Str × Json) → List SessionMessage →
    Option Str → Option Str → Except Unit RolloutParse
  | [], meta, msgs, st, en =>
    .ok ⟨meta, msgs.reverse,
      (match st with | none => en | some v => some v), en⟩
  | line :: rest, meta, msgs, st, en =>
    match line with
    | none => prmGo rest meta msgs st en
    | some ev =>
      match prmStep ev meta msgs st en with
      | some (m2, g2, s2, e2) => prmGo rest m2 g2 s2 e2
      | none => .error ()

def parse_rollout_messages (lines : List (Option Json)) :
    Except Unit RolloutParse :=
  prmGo lines [] [] none none

/-- Embeds `codex._select_snippets` (default `max_snippets = 12`). -/
def _select_snippets (messages : List SessionMessage)
    (max_snippets : Nat := 12) : List Json :=
  let filtered0 := messages.filter (fun m => ¬ _is_harness_context_message m.text)
  let filtered := if filtered0.isEmpty then messages else filtered0
  let picked :=
    if filtered.length ≤ max_snippets then filtered
    else
      let tail := filtered.drop (filtered.length - max_snippets)
      match filtered with
      | [] => tail
      | head :: _ =>
        if tail.contains head then tail else head :: tail.dropLast
  picked.map (fun m =>
    Json.obj
      [ ("role".data, .str m.role)
      , ("ts".data, match m.ts with | some v => .str v | none => .null)
      , ("text".data, .str m.text) ])

/-- Embeds `codex._fallback_summary`. -/
def _fallback_summary (messages : List SessionMessage) : Option Str :=
  let filtered := messages.filter (fun m =>
    m.role = "user".data && ¬ _is_harness_context_message m.text)
  match filtered with
  | [] => none
  | m :: _ =>
    let first :=
      if (pyStrip m.text).isEmpty then []
      else ((pySplitlines (pyStrip m.text)).headD [])
    if first.isEmpty then none else some (first.take 120)

/-- Python `s.rstrip()`. -/
def pyRstrip (s : Str) : Str := (s.reverse.dropWhile pyIsSpace).reverse

/-! ## `sessions/codex.py` — title compaction

`_compact_title`'s regexes, like `_tokenize`'s, double their backslashes
inside raw strings: `\\s` denotes a literal backslash followed by the
letter `s`, and the "CJK" search uses the same broken class as the
tokenizer.  The embeddings below follow those as-written semantics. -/

/-- The tail of the summary-junk pattern after an alternative word: a
literal backslash, any number of `s` (case-insensitive), an ASCII or
fullwidth colon, a literal backslash, any number of `s`. -/
def junkTail (s : Str) : Option Str := do
  let s1 ← stripLit ['\\'] s
  let s2 := s1.dropWhile (fun c => c = 's' || c = 'S')
  match s2 with
  | c :: r =>
    if c = ':' ∨ c = '：' then do
      let s3 ← stripLit ['\\'] r
      return s3.dropWhile (fun c => c = 's' || c = 'S')
    else none
  | [] => none

/-- The first `re.sub` of `_compact_title` (remove a leading
summary-marker, as the pattern is actually written). -/
def stripSummaryJunk (s : Str) : Str :=
  let tryWord := fun (w : Str) =>
    match stripLitCi w s with
    | some rest => junkTail rest
    | none => none
  match tryWord "summary".data with
  | some r => r
  | none =>
    match tryWord "摘要".data with
    | some r => r
    | none =>
      match tryWord "总结".data with
      | some r => r
      | none =>
        match tryWord "概述".data with
        | some r => r
        | none => s

/-- The second `re.sub` of `_compact_title`: each literal backslash
followed by one or more `s` becomes a single space. -/
def subBackslashS : Str → Str
  | [] => []
  | c :: t =>
    if c = '\\' ∧ ¬ (t.takeWhile (fun d => d = 's')).isEmpty then
      ' ' :: subBackslashS (t.dropWhile (fun d => d = 's'))
    else c :: subBackslashS t
termination_by s => s.length
decreasing_by
  · exact lenDropWhileLtCons _ _ _
  · simp only [List.length_cons]; omega

/-- Searches for the boundary patterns of `_compact_title` as written: a
punctuation character followed by a literal backslash and a run of `s`;
returns the match end. -/
def boundarySearchEnd (puncts : List Char) : Str → Nat → Option Nat
  | c1 :: c2 :: t, i =>
    if puncts.contains c1 ∧ c2 = '\\' then
      some (i + 2 + (t.takeWhile (fun d => d = 's')).length)
    else boundarySearchEnd puncts (c2 :: t) (i + 1)
  | _, _ => none

/-- The boundary-cut loop of `_compact_title`. -/
def boundaryCut (s : Str) (effective_max : Nat) : Str :=
  let tryPat := fun (puncts : List Char) =>
    match boundarySearchEnd puncts s 0 with
    | some e => if 8 ≤ e ∧ e ≤ effective_max then some (pyStrip (s.take e)) else none
    | none => none
  match tryPat ['。', '.', '!', '?', '！', '？'] with
  | some r => r
  | none =>
    match tryPat ['；', ';'] with
    | some r => r
    | none =>
      match tryPat ['，', ',', '、', ':'] with
      | some r => r
      | none => s

/-- Embeds `codex._compact_title` (default `max_len = 60`). -/
def _compact_title (text : Str) (fallback : Str) (max_len : Nat := 60) : Str :=
  let s0 := pyStrip text
  if s0.isEmpty then fallback else
  let s1 := pyStrip ((pySplitlines s0).headD [])
  let s2 := pyStrip (stripSummaryJunk s1)
  let s3 := pyStrip (subBackslashS s2)
  if s3.isEmpty then fallback else
  let effective_max := if s3.any cjkClassAsWritten then min max_len 28 else max_len
  let s4 := if effective_max < s3.length then boundaryCut s3 effective_max else s3
  if effective_max < s4.length then
    pyRstrip (s4.take (max 1 (effective_max - 3))) ++ "...".data
  else s4

/-! ## `sessions/codex.py` — heuristic matching -/

/-- Python dict `get` on a JSON value (the code only ever applies it to
decoded objects; on a non-object Python would raise, which no claim
exercises). -/
def jsonGetJ (j : Json) (k : Str) : Option Json :=
  match j with
  | .obj kvs => jsonLookup kvs k
  | _ => none

/-- Embeds `codex._session_text`. -/
def _session_text (payload : Json) : Str :=
  let parts1 :=
    match jsonGetJ payload "summary".data with
    | some (.str v) => if (pyStrip v).isEmpty then [] else [pyStrip v]
    | _ => []
  let snippets :=
    match jsonGetJ payload "snippets".data with
    | some v => if jsonTruthy v then v else .arr []
    | none => .arr []
  let parts2 :=
    match snippets with
    | .arr sns =>
      (sns.take 6).filterMap (fun sn =>
        match sn with
        | .obj kvs =>
          match jsonLookup kvs "text".data with
          | some (.str t) =>
            if (pyStrip t).isEmpty then none
            else some (pyStrOfJson ((jsonLookup kvs "role".data).getD .null)
              ++ ": ".data ++ pyStrip t)
          | _ => none
        | _ => none)
    | _ => []
  joinStr ['\n'] (parts1 ++ parts2)

/-- All tasks of a parsed board, iterating sections in dict order. -/
def allTasks (parsed : ParsedBoard) : List TaskBlock :=
  parsed.sections.flatMap (fun kv => kv.2.tasks)

/-- Embeds `codex._best_task_match`. -/
def _best_task_match (board_content : Str) (payload : Json) :
    Except BoardErr (Option Str × ℚ) := do
  let parsed ← parse_board board_content
  let tasks := allTasks parsed
  if tasks.isEmpty then return (none, 0)
  let s_tokens := _tokenize (_session_text payload)
  if s_tokens.isEmpty then return (none, 0)
  return tasks.foldl (fun acc t =>
    let score := _jaccard s_tokens (_tokenize (joinStr [' '] (t.title :: t.tags)))
    if acc.2 < score then (some t.uuid, score) else acc)
    ((none : Option Str), (0 : ℚ))

/-- Embeds `codex._normalize_ai_provider`. -/
def _normalize_ai_provider (provider : Option Str) : Str :=
  let p := toLowerStr (pyStrip (provider.getD []))
  if p = ([] : Str) ∨ p = "codex".data ∨ p = "codex-cli".data ∨ p = "codex_cli".data then
    "codex-cli".data
  else if p = "openai".data ∨ p = "openai-compatible".data ∨ p = "openai_compatible".data then
    "openai-compatible".data
  else if p = "auto".data then "auto".data
  else "codex-cli".data

/-! ## `board_md.py` — `add_session_ref_to_block` -/

/-- Matches `^>\\s*<field>::` (case-insensitive) at the start of a line,
returning the rest of the line (possibly empty). -/
def matchFieldPre (field : Str) (line : Str) : Option Str := do
  let s1 ← stripLit ">".data line
  let s2 := s1.dropWhile pyIsSpace
  stripLitCi (field ++ "::".data) s2

/-- Matches the callout-line pattern `^>\\s*\\[![^\\]]+\\]` at the start of
a line. -/
def isCalloutLine (line : Str) : Bool :=
  (Option.isSome <| do
    let s1 ← stripLit ">".data line
    let s2 := s1.dropWhile pyIsSpace
    let s3 ← stripLit "[!".data s2
    let inner := s3.takeWhile (fun c => c ≠ ']')
    if inner.isEmpty then none else
    stripLit "]".data (s3.drop inner.length))

/-- Python `s.rstrip(chr(10))`. -/
def stripTrailNl (s : Str) : Str :=
  (s.reverse.dropWhile (fun c => c = '\n')).reverse

/-- Embeds `board_md.add_session_ref_to_block`. -/
def add_session_ref_to_block (block : Str) (session_ref : Str) : Str :=
  let ref := pyStrip session_ref
  if ref.isEmpty then block else
  let lines := splitNl (replaceCrlf block)
  match lines.findIdx? (fun l => (matchFieldPre "sessions".data l).isSome) with
  | some i =>
    let line := lines.getD i []
    let rest0 := (matchFieldPre "sessions".data line).getD []
    let raw := rest0.dropWhile pyIsSpace
    let pre := line.take (line.length - raw.length)
    let existing := ((raw.splitOnP (fun c => c = ',' || c = '，')).map pyStrip).filter
      (fun p => ¬ p.isEmpty)
    if existing.any (fun p => toLowerStr p = toLowerStr ref) then
      if endsWithChar block '\n' then block else block ++ ['\n']
    else
      let lines2 := lines.set i (pre ++ joinStr ", ".data (existing ++ [ref]))
      stripTrailNl (joinStr ['\n'] lines2) ++ ['\n']
  | none =>
    let iTags := lines.findIdx? (fun l => (matchFieldPre "tags".data l).isSome)
    let iStatus := lines.findIdx? (fun l => (matchFieldPre "status".data l).isSome)
    let iCallout := lines.findIdx? isCalloutLine
    let insert_after :=
      ((iTags.orElse (fun _ => iStatus)).orElse (fun _ => iCallout)).getD 0
    let lines2 := lines.insertIdx (insert_after + 1)
      ("> sessions:: ".data ++ ref)
    stripTrailNl (joinStr ['\n'] lines2) ++ ['\n']

/-! ## `sessions/codex.py` — the reconciliation pass

The pass touches the outside world through: the file system (board file,
artifact JSON files, raw logs), the clock, `uuid.uuid4`, `datetime`
parsing, and the AI capability.  All are passed in explicitly; the raw
log directory scan (`iter_rollout_files`) is abstracted as the given list
of rollouts. -/

/-- Python `int(x)` truncation toward zero on an exact float. -/
def pyIntQ (q : ℚ) : Int := if 0 ≤ q then ⌊q⌋ else ⌈q⌉

/-- Embeds `codex._duration_sec`; `parseIso` abstracts `_parse_iso`
(ISO-8601 → epoch seconds). -/
def _duration_sec (parseIso : Str → Option ℚ) (started_at ended_at : Option Str) :
    Option Int :=
  match started_at, ended_at with
  | some st, some en =>
    if st.isEmpty ∨ en.isEmpty then none else
    match parseIso st, parseIso en with
    | some sq, some eq2 => some (max 0 (pyIntQ (eq2 - sq)))
    | _, _ => none
  | _, _ => none

/-- The `os.stat` result fields the pass reads. -/
structure Stat where
  mtime : ℚ
  size : Int

/-- A discovered raw rollout log file. -/
structure Rollout where
  /-- The file name (matched by `_UUID_IN_FILENAME_RE`). -/
  name : Str
  /-- The full path string (stored in `raw_ref`). -/
  pathStr : Str
  /-- The stat result; `none` models `rollout.stat()` raising. -/
  stat : Option Stat
  /-- The decoded JSONL lines; `none` is a blank or malformed line. -/
  lines : List (Option Json)

/-- The keyword parameters of `sync_codex_sessions`, plus the path strings
recorded into the state record. -/
structure SyncConfig where
  summarize : Bool := true
  stable_after_s : ℚ := 10
  link_board : Bool := true
  board_rel_path : Str := "Tasks/Boards/Board.md".data
  match_mode : Str := "ai".data
  match_threshold : ℚ := 18 / 100
  ai_confidence_threshold : ℚ := 65 / 100
  ai_top_k : Int := 20
  sessionsRootStr : Str := []
  outDirStr : Str := []

/-- The external capabilities of the pass. -/
structure SyncEnv where
  /-- Python `time.time()` at the start of the pass. -/
  now : ℚ
  /-- Python `_utc_now_iso()` (used in created-timestamps and the state). -/
  nowIso : Str
  /-- The filename-safe timestamp used by `write_board_with_history`. -/
  histTs : Str
  /-- Abstracts `_parse_iso`. -/
  parseIso : Str → Option ℚ
  /-- Abstracts `_summarize_with_ai` (AI call; `none` = failure). -/
  aiSummarize : List SessionMessage → Option Str
  /-- Abstracts `_ai_match_task_uuid` on (board content, session payload):
  the candidate uuid and the returned confidence. -/
  aiMatch : Str → Json → Option Str × Option ℚ
  /-- Abstracts `uuid.uuid4()`: the n-th fresh uuid of the pass. -/
  uuidAt : Nat → Str
  /-- The raw `AI_TASKS_MODEL_PROVIDER` environment value. -/
  providerRaw : Option Str := none
  /-- The `AI_TASKS_MODEL_NAME` environment value. -/
  aiModelName : Option Str := none

/-- The persisted sessions state (the Python `SessionsState` dataclass of
`sessions/state.py`). -/
structure SessionsState where
  schema : Str
  initialized_at : Str
  ignore_before_epoch : Int
  sources : List (Str × Json)

/-- Python-dict assignment on a decoded JSON object. -/
def jsonObjSet (kvs : List (Str × Json)) (k : Str) (v : Json) :
    List (Str × Json) :=
  match kvs with
  | [] => [(k, v)]
  | (k0, v0) :: rest =>
    if k0 = k then (k, v) :: rest else (k0, v0) :: jsonObjSet rest k v

/-- The mutable state threaded through the per-rollout loop. -/
structure LoopState where
  written : Nat := 0
  skipped_old : Nat := 0
  skipped_recent : Nat := 0
  skipped_existing : Nat := 0
  skipped_already_linked : Nat := 0
  linked_updates : Nat := 0
  created_unassigned : Nat := 0
  errors : Nat := 0
  board_content : Option Str
  board_changed : Bool := false
  /-- The artifact files under the output dir: session id to decoded
  content (`none` = file exists but is not valid JSON). -/
  artifacts : List (Str × Option Json)
  artifactWrites : List (Str × Json) := []
  uuidIdx : Nat := 0

/-- Lookup in the artifact store (`out_path.exists()` + read). -/
def artGet (m : List (Str × Option Json)) (k : Str) : Option (Option Json) :=
  match m with
  | [] => none
  | (k0, v0) :: rest => if k0 = k then some v0 else artGet rest k

/-- Write to the artifact store. -/
def artUpsert (m : List (Str × Option Json)) (k : Str) (v : Option Json) :
    List (Str × Option Json) :=
  match m with
  | [] => [(k, v)]
  | (k0, v0) :: rest =>
    if k0 = k then (k, v) :: rest else (k0, v0) :: artUpsert rest k v

/-- Json wrapper for an optional string. -/
def optStr : Option Str → Json
  | some v => .str v
  | none => .null

/-- The new-`Unassigned`-task branch of the sync loop (lines 872–907 of
`codex.py`).  Always consumes one fresh uuid (the block is built before
the board is re-parsed). -/
def createUnassigned (env : SyncEnv) (s : LoopState) (payload : Json)
    (session_ref : Str) (board : Str) : LoopState :=
  let titleArg :=
    match jsonGetJ payload "summary".data with
    | some j => if jsonTruthy j then pyStrOfJson j else []
    | none => []
  let title := _compact_title titleArg session_ref 60
  let summaryLines :=
    match jsonGetJ payload "summary".data with
    | some (.str v) =>
      if v.isEmpty then []
      else ["Summary:".data, pyStrip v, ([] : Str)]
    | _ => []
  let snippets :=
    match jsonGetJ payload "snippets".data with
    | some v => if jsonTruthy v then v else .arr []
    | none => .arr []
  let snippetLines :=
    match snippets with
    | .arr sns =>
      if sns.isEmpty then []
      else
        "Snippets:".data :: (sns.take 6).filterMap (fun sn =>
          match sn with
          | .obj kvs =>
            match jsonLookup kvs "text".data with
            | some (.str t) =>
              if (pyStrip t).isEmpty then none
              else some ("- ".data
                ++ pyStrOfJson ((jsonLookup kvs "role".data).getD .null)
                ++ ": ".data
                ++ (((pyStrip t).map (fun c => if c = '\n' then ' ' else c)).take 200))
            | _ => none
          | _ => none)
    | _ => []
  let body := pyStrip (joinStr ['\n']
    (["Session: ".data ++ session_ref, ([] : Str)] ++ summaryLines ++ snippetLines))
  let block := build_task_block none title "Unassigned".data
    ["session".data, "codex".data] body [session_ref]
    (env.uuidAt s.uuidIdx) env.nowIso
  let s1 := { s with uuidIdx := s.uuidIdx + 1 }
  match parse_board board with
  | .error _ => { s1 with errors := s1.errors + 1 }
  | .ok parsed =>
    let first_unassigned :=
      match dictGet parsed.sections "Unassigned".data with
      | some sec => match sec.tasks with | t :: _ => some t.uuid | [] => none
      | none => none
    match insert_task_block board "Unassigned".data first_unassigned block with
    | .ok nb =>
      { s1 with board_content := some nb, board_changed := true,
                created_unassigned := s1.created_unassigned + 1 }
    | .error _ => { s1 with errors := s1.errors + 1 }

/-- The board-linking section of the sync loop (lines 814–907 of
`codex.py`) for one session whose payload is available. -/
def linkSessionStep (cfg : SyncConfig) (env : SyncEnv) (mode : Str)
    (s : LoopState) (payload : Json) (session_ref : Str) (board : Str) :
    LoopState :=
  if hasSub board session_ref then
    { s with skipped_already_linked := s.skipped_already_linked + 1 }
  else
    let aiRes : Option Str × Option ℚ :=
      if mode = "ai".data ∨ mode = "hybrid".data then env.aiMatch board payload
      else (none, none)
    let ai_conf := aiRes.2
    let afterAi : Option Str × Option Str :=
      match aiRes.1 with
      | some u => if u.isEmpty then (none, none) else (some u, some "ai".data)
      | none => (none, none)
    let hstep : Except BoardErr (Option Str × Option Str × ℚ) :=
      if (mode = "heuristic".data ∨ mode = "hybrid".data) ∧ afterAi.1 = none then
        match _best_task_match board payload with
        | .ok (u, sc) =>
          match u with
          | some v =>
            if v.isEmpty then .ok (some v, none, sc)
            else .ok (some v, some "heuristic".data, sc)
          | none => .ok (none, none, sc)
        | .error e => .error e
      else .ok (afterAi.1, afterAi.2, 0)
    match hstep with
    | .error _ => { s with errors := s.errors + 1 }
    | .ok (match_uuid, match_method, score) =>
      let truthyUuid : Bool :=
        match match_uuid with
        | some v => ¬ v.isEmpty
        | none => false
      let should_link : Bool :=
        if truthyUuid then
          if match_method = some "heuristic".data then
            decide (cfg.match_threshold ≤ score)
          else
            decide (cfg.ai_confidence_threshold ≤ ai_conf.getD 0)
        else false
      if should_link ∧ truthyUuid then
        match parse_board board with
        | .error _ => { s with errors := s.errors + 1 }
        | .ok parsed =>
          match findTaskInSections parsed.sections (match_uuid.getD []) with
          | some existing =>
            let updated := add_session_ref_to_block existing.raw session_ref
            match replace_task_block board existing.uuid updated with
            | .ok nb =>
              { s with board_content := some nb, board_changed := true,
                       linked_updates := s.linked_updates + 1 }
            | .error _ => { s with errors := s.errors + 1 }
          | none => createUnassigned env s payload session_ref board
      else createUnassigned env s payload session_ref board

/-- One iteration of the per-rollout loop of `sync_codex_sessions`
(lines 760–918 of `codex.py`). -/
def syncStep (cfg : SyncConfig) (env : SyncEnv) (linkBoard : Bool)
    (mode : Str) (ignore_before : Int) (s : LoopState) (r : Rollout) :
    LoopState :=
  match r.stat with
  | none => s
  | some st =>
    if pyIntQ st.mtime < ignore_before then
      { s with skipped_old := s.skipped_old + 1 }
    else if 0 < cfg.stable_after_s ∧ env.now - st.mtime < cfg.stable_after_s then
      { s with skipped_recent := s.skipped_recent + 1 }
    else
      match _extract_session_id r.name with
      | none => s
      | some sid =>
        let lookup := artGet s.artifacts sid
        let s1 :=
          match lookup with
          | some _ => { s with skipped_existing := s.skipped_existing + 1 }
          | none => s
        let payload0 : Option Json :=
          match lookup with
          | some (some Json.null) => none
          | some stored => stored
          | none => none
        let session_ref := "codex:".data ++ sid
        match payload0 with
        | some payload =>
          if linkBoard then
            match s1.board_content with
            | some board => linkSessionStep cfg env mode s1 payload session_ref board
            | none => s1
          else s1
        | none =>
          match parse_rollout_messages r.lines with
          | .error _ => { s1 with errors := s1.errors + 1 }
          | .ok pr =>
            let snippets := _select_snippets pr.messages
            let summary : Option Str :=
              if cfg.summarize then
                match env.aiSummarize pr.messages with
                | some t =>
                  if t.isEmpty then _fallback_summary pr.messages else some t
                | none => _fallback_summary pr.messages
              else none
            let payload : Json := .obj
              [ ("id".data, .str session_ref)
              , ("source".data, .str "codex".data)
              , ("started_at".data, optStr pr.started_at)
              , ("ended_at".data, optStr pr.ended_at)
              , ("duration_sec".data,
                 match _duration_sec env.parseIso pr.started_at pr.ended_at with
                 | some d => .num (d : ℚ)
                 | none => .null)
              , ("summary".data, optStr summary)
              , ("snippets".data, .arr snippets)
              , ("meta".data, .obj pr.meta)
              , ("raw_ref".data, .obj
                  [ ("path".data, .str r.pathStr)
                  , ("mtime_epoch".data, .num ((pyIntQ st.mtime : ℤ) : ℚ))
                  , ("size".data, .num (st.size : ℚ)) ]) ]
            let s2 := { s1 with
              artifacts := artUpsert s1.artifacts sid (some payload),
              artifactWrites := s1.artifactWrites ++ [(sid, payload)],
              written := s1.written + 1 }
            if linkBoard then
              match s2.board_content with
              | some board => linkSessionStep cfg env mode s2 payload session_ref board
              | none => s2
            else s2

/-- The observable outcome of a pass. -/
structure SyncResult where
  written : Nat
  skipped_old : Nat
  skipped_recent : Nat
  skipped_existing : Nat
  skipped_already_linked : Nat
  linked_updates : Nat
  created_unassigned : Nat
  errors : Nat
  /-- The in-memory board text at the end of the pass. -/
  boardContent : Option Str
  boardChanged : Bool
  linkBoardFinal : Bool
  artifactWrites : List (Str × Json)
  /-- The file writes performed by `write_board_with_history` (empty when
  it is not invoked). -/
  historyWrites : List (Str × Str)
  stateAfter : SessionsState

/-- Embeds `codex.sync_codex_sessions`.  `boardFile` is the on-disk board
content (`none` = absent; `ensure_board_file` then creates the scaffold),
`artifacts0` the existing artifact files, `rollouts` the discovered raw
log files in scan order. -/
def sync_codex_sessions (cfg : SyncConfig) (env : SyncEnv)
    (boardFile : Option Str) (artifacts0 : List (Str × Option Json))
    (state : SessionsState) (rollouts : List Rollout) : SyncResult :=
  let board0 := boardFile.getD build_default_board_markdown
  let lb :=
    if cfg.link_board then
      match parse_board board0 with
      | .ok _ => (true, some board0)
      | .error _ => (false, (none : Option Str))
    else (false, none)
  let linkBoard := lb.1
  let mode0 := toLowerStr (pyStrip
    (if cfg.match_mode.isEmpty then "ai".data else cfg.match_mode))
  let mode :=
    if mode0 = "heuristic".data ∨ mode0 = "ai".data ∨ mode0 = "hybrid".data
    then mode0 else "ai".data
  let ignore_before : Int := state.ignore_before_epoch
  let init : LoopState := { board_content := lb.2, artifacts := artifacts0 }
  let fin := rollouts.foldl (syncStep cfg env linkBoard mode ignore_before) init
  let histWrites :=
    if linkBoard ∧ fin.board_changed then
      match fin.board_content with
      | some bc =>
        write_board_with_history [(boardPathKey cfg.board_rel_path, board0)]
          cfg.board_rel_path env.histTs bc
      | none => []
    else []
  let codex0 :=
    match jsonLookup state.sources "codex".data with
    | some (.obj kvs) => kvs
    | _ => []
  let kvs1 := jsonObjSet codex0 "last_sync_at".data (.str env.nowIso)
  let kvs2 := jsonObjSet kvs1 "sessions_root".data (.str cfg.sessionsRootStr)
  let kvs3 := jsonObjSet kvs2 "output_dir".data (.str cfg.outDirStr)
  let kvs4 := jsonObjSet kvs3 "board_rel_path".data (.str cfg.board_rel_path)
  let kvs5 := jsonObjSet kvs4 "match_mode".data (.str mode)
  let kvs6 := jsonObjSet kvs5 "match_threshold".data (.num cfg.match_threshold)
  let kvs7 := jsonObjSet kvs6 "ai_confidence_threshold".data
    (.num cfg.ai_confidence_threshold)
  let kvs8 := jsonObjSet kvs7 "ai_top_k".data (.num (cfg.ai_top_k : ℚ))
  let kvs9 := jsonObjSet kvs8 "ai_chunk_size".data (.num (cfg.ai_top_k : ℚ))
  let kvs10 := jsonObjSet kvs9 "ai_provider".data
    (.str (_normalize_ai_provider env.providerRaw))
  let kvs11 :=
    match env.aiModelName with
    | some m => if m.isEmpty then kvs10 else jsonObjSet kvs10 "ai_model".data (.str m)
    | none => kvs10
  let kvs12 := jsonObjSet kvs11 "last_result".data (.obj
    [ ("written".data, .num (fin.written : ℚ))
    , ("skipped_old".data, .num (fin.skipped_old : ℚ))
    , ("skipped_recent".data, .num (fin.skipped_recent : ℚ))
    , ("skipped_existing".data, .num (fin.skipped_existing : ℚ))
    , ("skipped_already_linked".data, .num (fin.skipped_already_linked : ℚ))
    , ("linked_updates".data, .num (fin.linked_updates : ℚ))
    , ("created_unassigned".data, .num (fin.created_unassigned : ℚ))
    , ("errors".data, .num (fin.errors : ℚ)) ])
  let sources2 := jsonObjSet state.sources "codex".data (.obj kvs12)
  { written := fin.written
  , skipped_old := fin.skipped_old
  , skipped_recent := fin.skipped_recent
  , skipped_existing := fin.skipped_existing
  , skipped_already_linked := fin.skipped_already_linked
  , linked_updates := fin.linked_updates
  , created_unassigned := fin.created_unassigned
  , errors := fin.errors
  , boardContent := fin.board_content
  , boardChanged := fin.board_changed
  , linkBoardFinal := linkBoard
  , artifactWrites := fin.artifactWrites
  , historyWrites := histWrites
  , stateAfter := { state with sources := sources2 } }

/-! ## Lemmas: substring search -/

theorem findSubAux_some (pat : Str) :
    ∀ (s : Str) (i j : Nat), findSubAux pat s i = some j →
      ∃ k, j = i + k ∧ pat.isPrefixOf (s.drop k) := by
  intro s
  induction s with
  | nil =>
    intro i j h
    unfold findSubAux at h
    by_cases hp : pat.isPrefixOf ([] : Str)
    · rw [if_pos hp] at h
      obtain rfl : i = j := Option.some.inj h
      exact ⟨0, by omega, by simpa using hp⟩
    · rw [if_neg hp] at h
      cases h
  | cons c t ih =>
    intro i j h
    unfold findSubAux at h
    by_cases hp : pat.isPrefixOf (c :: t)
    · rw [if_pos hp] at h
      obtain rfl : i = j := Option.some.inj h
      exact ⟨0, by omega, by simpa using hp⟩
    · rw [if_neg hp] at h
      obtain ⟨k, hk, hpre⟩ := ih (i + 1) j h
      exact ⟨k + 1, by omega, by simpa using hpre⟩

theorem findSub_some {s pat : Str} {j : Nat} (h : findSub s pat = some j) :
    pat.isPrefixOf (s.drop j) := by
  obtain ⟨k, hk, hp⟩ := findSubAux_some pat s 0 j h
  simpa [hk] using hp

theorem findSub_some_le {s pat : Str} {j : Nat} (hne : pat ≠ [])
    (h : findSub s pat = some j) : j + pat.length ≤ s.length := by
  have hp := findSub_some h
  have hpre : pat <+: s.drop j := (List.isPrefixOf_iff_prefix).mp hp
  have hlen : pat.length ≤ (s.drop j).length := hpre.length_le
  have hne' : 0 < pat.length := List.length_pos.mpr hne
  simp only [List.length_drop] at hlen
  omega

theorem findSub_some_getD {s pat : Str} {j : Nat} (h : findSub s pat = some j)
    (k : Nat) (hk : k < pat.length) (d : Char) :
    s.getD (j + k) d = pat.getD k d := by
  have hp : pat <+: s.drop j := (List.isPrefixOf_iff_prefix).mp (findSub_some h)
  obtain ⟨rest, hrest⟩ := hp
  have h1 : (s.drop j).getD k d = pat.getD k d := by
    rw [← hrest]
    simp only [List.getD]
    rw [List.get?_append hk]
  rw [← h1]
  simp only [List.getD]
  rw [List.get?_drop]

theorem findSubGe_some {s pat : Str} {start j : Nat} (hne : pat ≠ [])
    (h : findSubGe s pat start = some j) :
    start ≤ j ∧ j + pat.length ≤ s.length := by
  unfold findSubGe at h
  obtain ⟨j0, hj0, hj⟩ := Option.map_eq_some'.mp h
  obtain ⟨k, hk, hp⟩ := findSubAux_some pat (s.drop start) 0 j0 hj0
  have hlen : pat.length ≤ ((s.drop start).drop k).length :=
    ((List.isPrefixOf_iff_prefix).mp hp).length_le
  have hne' : 0 < pat.length := List.length_pos.mpr hne
  simp only [List.length_drop] at hlen
  omega

/-! ## Lemmas: frames around a splice -/

theorem spliceFrame (c repl : Str) (p q b23 e : Nat)
    (h1 : b23 ≤ p) (h2 : p ≤ q) (h3 : q ≤ e) :
    ∃ mid, c.take p ++ repl ++ c.drop q = c.take b23 ++ mid ++ c.drop e := by
  refine ⟨(c.take p).drop b23 ++ repl ++ ((c.drop q).take (e - q)), ?_⟩
  have hA : c.take b23 ++ (c.take p).drop b23 = c.take p := by
    have h0 : (c.take p).take b23 = c.take b23 := by
      rw [List.take_take, min_eq_left h1]
    conv_rhs => rw [← List.take_append_drop b23 (c.take p)]
    rw [h0]
  have hB : (c.drop q).take (e - q) ++ c.drop e = c.drop q := by
    have h0 : (c.drop q).drop (e - q) = c.drop e := by
      rw [List.drop_drop]
      congr 1
      omega
    conv_rhs => rw [← List.take_append_drop (e - q) (c.drop q)]
    rw [h0]
  have hassoc : c.take b23 ++
      ((c.take p).drop b23 ++ repl ++ (c.drop q).take (e - q)) ++ c.drop e
      = (c.take b23 ++ (c.take p).drop b23) ++ repl ++
        ((c.drop q).take (e - q) ++ c.drop e) := by
    simp [List.append_assoc]
  rw [hassoc, hA, hB]

/-! ## Lemmas: `splitNl` -/

theorem splitNl_ne_nil (s : Str) : splitNl s ≠ [] := by
  cases s with
  | nil => simp [splitNl]
  | cons c t =>
    simp only [splitNl]
    split
    · simp
    · split <;> simp

/-- Total character count of the lines of a split, counting the separators
back in. -/
def totalLen : List Str → Nat
  | [] => 0
  | [l] => l.length
  | l :: rest => l.length + 1 + totalLen rest

theorem totalLen_cons_ne_nil (l : Str) {rest : List Str} (h : rest ≠ []) :
    totalLen (l :: rest) = l.length + 1 + totalLen rest := by
  cases rest with
  | nil => exact absurd rfl h
  | cons a t => rfl

theorem totalLen_ge_head (l : Str) (rest : List Str) :
    l.length ≤ totalLen (l :: rest) := by
  cases rest with
  | nil => simp [totalLen]
  | cons a t =>
    rw [totalLen_cons_ne_nil _ (by simp)]
    omega

theorem totalLen_splitNl : ∀ s : Str, totalLen (splitNl s) = s.length := by
  intro s
  induction s with
  | nil => rfl
  | cons c t ih =>
    by_cases hc : c = '\n'
    · rw [show splitNl (c :: t) = [] :: splitNl t by simp [splitNl, hc]]
      rw [totalLen_cons_ne_nil [] (splitNl_ne_nil t), ih]
      simp only [List.length_nil, List.length_cons]
      omega
    · rw [show splitNl (c :: t) =
          (match splitNl t with
           | l :: ls => (c :: l) :: ls
           | [] => [[c]]) by simp [splitNl, hc]]
      cases hst : splitNl t with
      | nil => exact absurd hst (splitNl_ne_nil t)
      | cons l ls =>
        rw [hst] at ih
        cases ls with
        | nil =>
          simp only [totalLen] at ih ⊢
          simp only [List.length_cons]
          omega
        | cons a u =>
          rw [totalLen_cons_ne_nil _ (by simp)] at ih
          rw [totalLen_cons_ne_nil _ (by simp)]
          simp only [List.length_cons] at *
          omega

theorem splitNl_eq_single_nil : ∀ s : Str, splitNl s = [[]] → s = [] := by
  intro s h
  cases s with
  | nil => rfl
  | cons c t =>
    by_cases hc : c = '\n'
    · rw [show splitNl (c :: t) = [] :: splitNl t by simp [splitNl, hc]] at h
      have h2 := splitNl_ne_nil t
      cases hst : splitNl t <;> simp_all
    · rw [show splitNl (c :: t) =
          (match splitNl t with
           | l :: ls => (c :: l) :: ls
           | [] => [[c]]) by simp [splitNl, hc]] at h
      cases hst : splitNl t <;> simp_all

theorem getLast?_cons_ne {a : Type} (c : a) {t : List a} (ht : t ≠ []) :
    (c :: t).getLast? = t.getLast? := by
  cases t with
  | nil => exact absurd rfl ht
  | cons x u => exact List.getLast?_cons_cons

theorem splitNl_last_nil : ∀ s : Str, s.getLast? = some '\n' →
    (splitNl s).getLast? = some [] := by
  intro s
  induction s with
  | nil => intro h; simp at h
  | cons c t ih =>
    intro h
    by_cases ht : t = []
    · subst ht
      simp at h
      subst h
      rfl
    · have hlast : t.getLast? = some '\n' := by
        rwa [getLast?_cons_ne c ht] at h
      have iht := ih hlast
      by_cases hc : c = '\n'
      · rw [show splitNl (c :: t) = [] :: splitNl t by simp [splitNl, hc]]
        cases hst : splitNl t with
        | nil => exact absurd hst (splitNl_ne_nil t)
        | cons l ls =>
          rw [hst] at iht
          rw [getLast?_cons_ne _ (by simp : (l :: ls) ≠ [])]
          exact iht
      · rw [show splitNl (c :: t) =
            (match splitNl t with
             | l :: ls => (c :: l) :: ls
             | [] => [[c]]) by simp [splitNl, hc]]
        cases hst : splitNl t with
        | nil => exact absurd hst (splitNl_ne_nil t)
        | cons l ls =>
          rw [hst] at iht
          cases ls with
          | nil =>
            simp at iht
            subst iht
            exact absurd (splitNl_eq_single_nil t hst) ht
          | cons a u =>
            rw [getLast?_cons_ne _ (by simp : (a :: u) ≠ [])]
            rw [getLast?_cons_ne _ (by simp : (a :: u) ≠ [])] at iht
            exact iht

/-! ## Lemmas: heading and task offsets -/

theorem headingOfLine_bounds {line : Str} {offset : Nat} {h : Heading}
    (hh : headingOfLine line offset = some h) :
    offset ≤ h.hStart ∧ h.hStart ≤ h.hEnd ∧ h.hEnd = offset + line.length := by
  simp only [headingOfLine] at hh
  by_cases hpre : ("## ".data).isPrefixOf (pyLstrip line) = true
  · rw [if_pos hpre] at hh
    cases hns : normalize_status (pyStrip ((pyLstrip line).drop 3)) with
    | none => rw [hns] at hh; cases hh
    | some st =>
      rw [hns] at hh
      cases hfs : findSub line "## ".data with
      | none => rw [hfs] at hh; cases hh
      | some k =>
        rw [hfs] at hh
        obtain rfl := Option.some.inj hh
        have hle := findSub_some_le (by simp : "## ".data ≠ []) hfs
        simp only [List.length_cons, List.length_nil] at hle
        exact ⟨by dsimp only; omega, by dsimp only; omega, rfl⟩
  · rw [if_neg hpre] at hh
    cases hh

theorem scanHeadings_bounds :
    ∀ (lines : List Str) (offset : Nat) (h : Heading),
      h ∈ scanHeadings lines offset →
      offset ≤ h.hStart ∧ h.hStart ≤ h.hEnd ∧
        h.hEnd ≤ offset + totalLen lines := by
  intro lines
  induction lines with
  | nil => intro offset h hm; simp [scanHeadings] at hm
  | cons line rest ih =>
    intro offset h hm
    simp only [scanHeadings] at hm
    rcases List.mem_append.mp hm with hm | hm
    · cases hho : headingOfLine line offset with
      | none => rw [hho] at hm; simp at hm
      | some h0 =>
        rw [hho] at hm
        simp only [Option.toList_some, List.mem_singleton] at hm
        subst hm
        obtain ⟨h1, h2, h3⟩ := headingOfLine_bounds hho
        have h4 := totalLen_ge_head line rest
        exact ⟨h1, h2, by omega⟩
    · obtain ⟨h1, h2, h3⟩ := ih (offset + line.length + 1) h hm
      cases rest with
      | nil => simp [scanHeadings] at hm
      | cons r rs =>
        rw [totalLen_cons_ne_nil _ (by simp)]
        exact ⟨by omega, h2, by omega⟩

theorem scanHeadings_strict :
    ∀ (lines : List Str) (offset : Nat) (h : Heading),
      lines.getLast? = some ([] : Str) →
      h ∈ scanHeadings lines offset →
      h.hEnd + 1 ≤ offset + totalLen lines := by
  intro lines
  induction lines with
  | nil => intro offset h _ hm; simp [scanHeadings] at hm
  | cons line rest ih =>
    intro offset h hl hm
    simp only [scanHeadings] at hm
    cases hrest : rest with
    | nil =>
      subst hrest
      simp only [List.getLast?_singleton, Option.some.injEq] at hl
      subst hl
      have : headingOfLine ([] : Str) offset = none := rfl
      rw [this] at hm
      simp [scanHeadings] at hm
    | cons r rs =>
      subst hrest
      rw [totalLen_cons_ne_nil _ (by simp)]
      rcases List.mem_append.mp hm with hm | hm
      · cases hho : headingOfLine line offset with
        | none => rw [hho] at hm; simp at hm
        | some h0 =>
          rw [hho] at hm
          simp only [Option.toList_some, List.mem_singleton] at hm
          subst hm
          obtain ⟨_, _, h3⟩ := headingOfLine_bounds hho
          omega
      · have hl2 : (r :: rs).getLast? = some ([] : Str) := by
          rwa [getLast?_cons_ne line (by simp)] at hl
        have := ih (offset + line.length + 1) h hl2 hm
        omega

theorem expandNl_ge (c : Str) (e : Nat) : e ≤ expandNl c e := by
  unfold expandNl
  split
  · split <;> omega
  · omega

theorem expandNl_le {c : Str} {e bnd : Nat} (h1 : e ≤ bnd)
    (h2 : c.getD bnd ' ' ≠ '\n') : expandNl c e ≤ bnd := by
  unfold expandNl
  split
  · rename_i hA
    have hne : e ≠ bnd := fun hEq => h2 (hEq ▸ hA.2)
    split
    · rename_i hB
      have hne2 : e + 1 ≠ bnd := fun hEq => h2 (hEq ▸ hB.2)
      omega
    · omega
  · omega

/-- The per-section bounds established by the parser when the region ends
with a newline. -/
def SecBounds (aStart aEnd : Nat) (sec : BSection) : Prop :=
  aStart ≤ sec.section_start ∧ sec.section_start ≤ aEnd ∧
  ∀ t ∈ sec.tasks,
    sec.section_start ≤ t.tStart ∧ t.tStart ≤ t.tEnd ∧ t.tEnd ≤ aEnd

theorem taskOfBegin_bounds {content : Str} {s0 : Nat} {stext : Str}
    {st : Str} {p : Nat × Str} {t : TaskBlock} {aEnd : Nat}
    (hbnd : s0 + stext.length ≤ aEnd ∨ stext.length = 0)
    (hch : content.getD aEnd ' ' ≠ '\n')
    (hmk : taskOfBegin content s0 stext st p = some t) :
    s0 ≤ t.tStart ∧ t.tStart ≤ t.tEnd ∧ t.tEnd ≤ aEnd := by
  unfold taskOfBegin at hmk
  by_cases hemp : p.2.isEmpty
  · rw [if_pos hemp] at hmk; cases hmk
  · rw [if_neg hemp] at hmk
    cases hfind : findSubGe stext (endMarkerFor p.2) p.1 with
    | none => rw [hfind] at hmk; cases hmk
    | some end_rel =>
      rw [hfind] at hmk
      obtain rfl := Option.some.inj hmk
      have hmarker_ne : endMarkerFor p.2 ≠ [] := by simp [endMarkerFor]
      obtain ⟨hge, hlen⟩ := findSubGe_some hmarker_ne hfind
      have hmlen : 0 < (endMarkerFor p.2).length := by
        simp [endMarkerFor]
      have hbnd2 : s0 + stext.length ≤ aEnd := by
        rcases hbnd with h | h
        · exact h
        · omega
      refine ⟨by dsimp only; omega, ?_, ?_⟩
      · have := expandNl_ge content (s0 + end_rel + (endMarkerFor p.2).length)
        dsimp only
        omega
      · dsimp only
        refine expandNl_le ?_ hch
        omega

theorem scanTasks_bounds {content : Str} {s0 s1 aEnd : Nat} {st : Str}
    (hs1 : s1 ≤ aEnd) (hch : content.getD aEnd ' ' ≠ '\n') :
    ∀ t ∈ scanTasks content s0 s1 st,
      s0 ≤ t.tStart ∧ t.tStart ≤ t.tEnd ∧ t.tEnd ≤ aEnd := by
  intro t ht
  unfold scanTasks at ht
  obtain ⟨p, hp, hmk⟩ := List.mem_filterMap.mp ht
  refine taskOfBegin_bounds ?_ hch hmk
  have hstl : ((content.drop s0).take (s1 - s0)).length ≤ s1 - s0 := by
    simp [List.length_take]
  by_cases hz : ((content.drop s0).take (s1 - s0)).length = 0
  · right; exact hz
  · left; omega

theorem dictUpsert_mem {m : List (Str × BSection)} {k : Str} {v : BSection} :
    ∀ kv ∈ dictUpsert m k v, kv ∈ m ∨ kv = (k, v) := by
  induction m with
  | nil => intro kv h; simp [dictUpsert] at h; simp [h]
  | cons a rest ih =>
    intro kv h
    unfold dictUpsert at h
    split at h
    · rename_i heq
      rcases List.mem_cons.mp h with h | h
      · right; exact h
      · left; exact List.mem_cons_of_mem _ h
    · rcases List.mem_cons.mp h with h | h
      · left; exact h ▸ List.mem_cons_self _ _
      · rcases ih kv h with h | h
        · left; exact List.mem_cons_of_mem _ h
        · right; exact h

theorem buildSections_bounds {content : Str} {aStart aEnd : Nat}
    (hch : content.getD aEnd ' ' ≠ '\n') :
    ∀ (hs : List Heading) (acc : List (Str × BSection)),
      (∀ hh ∈ hs, aStart ≤ hh.hStart ∧ hh.hStart ≤ hh.hEnd ∧
        hh.hEnd + 1 ≤ aEnd) →
      (∀ kv ∈ acc, SecBounds aStart aEnd kv.2) →
      ∀ kv ∈ buildSections content aEnd hs acc,
        SecBounds aStart aEnd kv.2 := by
  intro hs
  induction hs with
  | nil =>
    intro acc _ hacc kv hkv
    simp only [buildSections] at hkv
    exact hacc kv hkv
  | cons h rest ih =>
    intro acc hhs hacc kv hkv
    simp only [buildSections] at hkv
    refine ih _ (fun hh hm => hhs hh (List.mem_cons_of_mem _ hm)) ?_ kv hkv
    intro kv2 hkv2
    rcases dictUpsert_mem kv2 hkv2 with hin | heq
    · exact hacc kv2 hin
    · subst heq
      obtain ⟨hb1, hb2, hb3⟩ := hhs h (List.mem_cons_self _ _)
      cases hrest2 : rest with
      | nil =>
        dsimp only [SecBounds]
        refine ⟨by omega, by omega, ?_⟩
        intro t ht
        exact scanTasks_bounds (le_refl aEnd) hch t ht
      | cons h2 rs =>
        obtain ⟨g1, g2, g3⟩ := hhs h2 (by rw [hrest2]; simp)
        dsimp only [SecBounds]
        refine ⟨by omega, by omega, ?_⟩
        intro t ht
        exact scanTasks_bounds (by omega) hch t ht

/-! ## Lemmas: parse characterization and the frame theorem -/

theorem parse_board_ok_elim {content : Str} {P : ParsedBoard}
    (hp : parse_board content = .ok P) :
    ∃ b e, findSub content AUTO_BEGIN = some b ∧
      findSub content AUTO_END = some e ∧ b < e ∧
      P.auto_start = b + AUTO_BEGIN.length ∧ P.auto_end = e ∧
      P.content = content ∧
      P.sections = buildSections content e
        (scanHeadings (splitNl ((content.drop (b + AUTO_BEGIN.length)).take
          (e - (b + AUTO_BEGIN.length)))) (b + AUTO_BEGIN.length)) [] := by
  unfold parse_board find_auto_area at hp
  cases hb : findSub content AUTO_BEGIN with
  | none =>
    rw [hb] at hp
    dsimp only at hp
    simp [Bind.bind, Except.bind] at hp
  | some b =>
    cases he : findSub content AUTO_END with
    | none =>
      rw [hb, he] at hp
      dsimp only at hp
      simp [Bind.bind, Except.bind] at hp
    | some e =>
      rw [hb, he] at hp
      dsimp only at hp
      by_cases hle : e ≤ b
      · rw [if_pos hle] at hp
        simp [Bind.bind, Except.bind] at hp
      · rw [if_neg hle] at hp
        simp only [Bind.bind, Except.bind, pure, Except.pure] at hp
        obtain rfl := (Except.ok.inj hp).symm
        exact ⟨b, e, rfl, rfl, by omega, rfl, rfl, rfl, rfl⟩

theorem region_last_newline {content : Str} {b e : Nat}
    (he : findSub content AUTO_END = some e)
    (hlt : b + AUTO_BEGIN.length < e)
    (hnl : content.getD (e - 1) ' ' = '\n') :
    (splitNl ((content.drop (b + AUTO_BEGIN.length)).take
      (e - (b + AUTO_BEGIN.length)))).getLast? = some [] := by
  apply splitNl_last_nil
  have hel : e + AUTO_END.length ≤ content.length :=
    findSub_some_le (by simp [AUTO_END]) he
  have haelen : 0 < AUTO_END.length := by simp [AUTO_END]
  set aStart := b + AUTO_BEGIN.length with haS
  have hlen : ((content.drop aStart).take (e - aStart)).length = e - aStart := by
    simp only [List.length_take, List.length_drop]
    omega
  rw [List.getLast?_eq_getElem?, hlen]
  rw [List.getElem?_take_of_lt (by omega : e - aStart - 1 < e - aStart)]
  rw [List.getElem?_drop]
  have hidx : aStart + (e - aStart - 1) = e - 1 := by omega
  rw [hidx]
  have hlt2 : e - 1 < content.length := by omega
  rw [List.getElem?_eq_getElem hlt2]
  simp only [List.getD, List.get?_eq_getElem?,
    List.getElem?_eq_getElem hlt2, Option.getD_some] at hnl
  rw [hnl]

theorem auto_end_char {content : Str} {e : Nat}
    (he : findSub content AUTO_END = some e) :
    content.getD e ' ' = '<' := by
  have := findSub_some_getD he 0 (by simp [AUTO_END]) ' '
  simpa using this

theorem parsed_sections_bounds {content : Str} {P : ParsedBoard} {b e : Nat}
    (hp : parse_board content = .ok P)
    (hb : findSub content AUTO_BEGIN = some b)
    (he : findSub content AUTO_END = some e)
    (hnl : content.getD (e - 1) ' ' = '\n') :
    ∀ kv ∈ P.sections,
      SecBounds (b + AUTO_BEGIN.length) e kv.2 := by
  obtain ⟨b2, e2, hb2, he2, hlt2, haS, haE, hc, hsecs⟩ := parse_board_ok_elim hp
  have hbb : b = b2 := by rw [hb] at hb2; exact Option.some.inj hb2
  have hee : e = e2 := by rw [he] at he2; exact Option.some.inj he2
  subst hbb
  subst hee
  have hch : content.getD e ' ' ≠ '\n' := by
    rw [auto_end_char he]
    decide
  rw [hsecs]
  by_cases hreg : b + AUTO_BEGIN.length < e
  · -- region nonempty: the strict heading bound applies
    have hlast := region_last_newline he hreg hnl
    have hauto : totalLen (splitNl ((content.drop (b + AUTO_BEGIN.length)).take
        (e - (b + AUTO_BEGIN.length)))) = e - (b + AUTO_BEGIN.length) := by
      rw [totalLen_splitNl]
      have hel : e + AUTO_END.length ≤ content.length :=
        findSub_some_le (by simp [AUTO_END]) he
      simp only [List.length_take, List.length_drop]
      omega
    apply buildSections_bounds hch
    · intro hh hm
      obtain ⟨g1, g2, g3⟩ := scanHeadings_bounds _ _ hh hm
      have g4 := scanHeadings_strict _ _ hh hlast hm
      rw [hauto] at g4
      exact ⟨g1, g2, by omega⟩
    · intro kv hkv
      simp at hkv
  · -- region empty: no headings, no sections
    have hauto0 : ((content.drop (b + AUTO_BEGIN.length)).take
        (e - (b + AUTO_BEGIN.length))) = [] := by
      have : e - (b + AUTO_BEGIN.length) = 0 := by omega
      rw [this]
      simp
    rw [hauto0]
    intro kv hkv
    have : scanHeadings (splitNl ([] : Str)) (b + AUTO_BEGIN.length) = [] := rfl
    rw [this] at hkv
    simp only [buildSections] at hkv
    simp at hkv

theorem findTaskInSections_mem {secs : List (Str × BSection)} {u : Str}
    {t : TaskBlock} (h : findTaskInSections secs u = some t) :
    ∃ kv ∈ secs, t ∈ kv.2.tasks := by
  induction secs with
  | nil => cases h
  | cons kv0 rest ih =>
    unfold findTaskInSections at h
    cases hf : kv0.2.tasks.find? (fun tb => tb.uuid = u) with
    | some t0 =>
      rw [show (kv0.2.tasks.find? (fun tb => decide (tb.uuid = u))) = some t0 from hf] at h
      obtain rfl := Option.some.inj h
      exact ⟨kv0, List.mem_cons_self _ _, List.mem_of_find?_eq_some hf⟩
    | none =>
      rw [show (kv0.2.tasks.find? (fun tb => decide (tb.uuid = u))) = none from hf] at h
      obtain ⟨kv, hm, ht⟩ := ih h
      exact ⟨kv, List.mem_cons_of_mem _ hm, ht⟩

theorem dictGet_mem {m : List (Str × BSection)} {k : Str} {v : BSection}
    (h : dictGet m k = some v) : (k, v) ∈ m := by
  induction m with
  | nil => cases h
  | cons kv0 rest ih =>
    unfold dictGet at h
    split at h
    · rename_i heq
      obtain rfl := Option.some.inj h
      subst heq
      exact List.mem_cons_self _ _
    · exact List.mem_cons_of_mem _ (ih h)

theorem findInsertionPoint_bounds {P : ParsedBoard} {st : Str}
    {bu : Option Str} {i : Nat} {aStart aEnd : Nat}
    (hsec : ∀ kv ∈ P.sections, SecBounds aStart aEnd kv.2)
    (h : findInsertionPoint P st bu = .ok i) :
    aStart ≤ i ∧ i ≤ aEnd := by
  unfold findInsertionPoint at h
  dsimp only at h
  cases hget : dictGet P.sections ((normalize_status st).getD "Unassigned".data) with
  | none => rw [hget] at h; cases h
  | some sec =>
    rw [hget] at h
    dsimp only at h
    obtain ⟨hb1, hb2, hb3⟩ := hsec _ (dictGet_mem hget)
    cases hbu : (match bu with
        | some bb =>
          if bb.isEmpty then none
          else (sec.tasks.find? (fun t : TaskBlock => t.uuid = toLowerStr bb)).map
            (fun t : TaskBlock => t.tStart)
        | none => none) with
    | some j =>
      rw [hbu] at h
      obtain rfl := Except.ok.inj h
      -- j is the tStart of a found task
      cases bu with
      | none => cases hbu
      | some bb =>
        dsimp only at hbu
        by_cases hbe : bb.isEmpty
        · rw [if_pos hbe] at hbu; cases hbu
        · rw [if_neg hbe] at hbu
          obtain ⟨tfound, hfind, rfl⟩ := Option.map_eq_some'.mp hbu
          obtain ⟨g1, g2, g3⟩ := hb3 tfound (List.mem_of_find?_eq_some hfind)
          exact ⟨by omega, by omega⟩
    | none =>
      rw [hbu] at h
      cases hlast : sec.tasks.getLast? with
      | some last =>
        rw [hlast] at h
        obtain rfl := Except.ok.inj h
        obtain ⟨g1, g2, g3⟩ := hb3 last (List.mem_of_getLast?_eq_some hlast)
        exact ⟨by omega, by omega⟩
      | none =>
        rw [hlast] at h
        obtain rfl := Except.ok.inj h
        exact ⟨hb1, hb2⟩

/-- A structural board mutation (the operations claim C1 ranges over). -/
inductive BoardOp where
  | ins (to_status : Str) (before_uuid : Option Str) (blk : Str)
  | rep (task_uuid : Str) (blk : Str)

/-- Apply one board mutation. -/
def applyOp : BoardOp → Str → Except BoardErr Str
  | .ins st bu blk, c => insert_task_block c st bu blk
  | .rep u blk, c => replace_task_block c u blk

/-- Content outside the managed region is preserved: the output is the
input's bytes up to and including the BEGIN marker, then some middle, then
the input's bytes from the start of the END marker on. -/
def FramePreserved (c out : Str) : Prop :=
  ∃ b e, findSub c AUTO_BEGIN = some b ∧ findSub c AUTO_END = some e ∧
    ∃ mid, out = c.take (b + AUTO_BEGIN.length) ++ mid ++ c.drop e

theorem insert_frame {content : Str} {b e : Nat}
    (hb : findSub content AUTO_BEGIN = some b)
    (he : findSub content AUTO_END = some e)
    (hnl : content.getD (e - 1) ' ' = '\n')
    {st : Str} {bu : Option Str} {blk out : Str}
    (hok : insert_task_block content st bu blk = .ok out) :
    ∃ mid, out = content.take (b + AUTO_BEGIN.length) ++ mid ++ content.drop e := by
  unfold insert_task_block at hok
  cases hpb : parse_board content with
  | error ex => rw [hpb] at hok; simp [Bind.bind, Except.bind] at hok
  | ok P =>
    rw [hpb] at hok
    simp only [Bind.bind, Except.bind] at hok
    cases hip : findInsertionPoint P st bu with
    | error ex => rw [hip] at hok; simp at hok
    | ok i =>
      rw [hip] at hok
      dsimp only at hok
      simp only [pure, Except.pure, Except.ok.injEq] at hok
      have hsec := parsed_sections_bounds hpb hb he hnl
      obtain ⟨hb1, hb2⟩ := findInsertionPoint_bounds hsec hip
      obtain ⟨mid, hmid⟩ := spliceFrame content
        ((if ¬ (content.take i).isEmpty ∧ ¬ endsWithChar (content.take i) '\n'
            then ['\n'] else []) ++ blk ++
          (if ¬ endsWithChar blk '\n' then ['\n'] else []))
        i i (b + AUTO_BEGIN.length) e hb1 (le_refl i) hb2
      exact ⟨mid, by rw [← hok]; exact hmid⟩

theorem replace_frame {content : Str} {b e : Nat}
    (hb : findSub content AUTO_BEGIN = some b)
    (he : findSub content AUTO_END = some e)
    (hnl : content.getD (e - 1) ' ' = '\n')
    {u blk out : Str}
    (hok : replace_task_block content u blk = .ok out) :
    ∃ mid, out = content.take (b + AUTO_BEGIN.length) ++ mid ++ content.drop e := by
  unfold replace_task_block at hok
  cases hpb : parse_board content with
  | error ex => rw [hpb] at hok; simp [Bind.bind, Except.bind] at hok
  | ok P =>
    rw [hpb] at hok
    simp only [Bind.bind, Except.bind] at hok
    cases hfind : findTaskInSections P.sections (toLowerStr u) with
    | none => rw [hfind] at hok; simp at hok
    | some existing =>
      rw [hfind] at hok
      dsimp only at hok
      simp only [pure, Except.pure, Except.ok.injEq] at hok
      have hsec := parsed_sections_bounds hpb hb he hnl
      obtain ⟨kv, hkv, htask⟩ := findTaskInSections_mem hfind
      obtain ⟨g1, g2, hts⟩ := hsec kv hkv
      obtain ⟨q1, q2, q3⟩ := hts existing htask
      obtain ⟨mid, hmid⟩ := spliceFrame content
        (if endsWithChar blk '\n' then blk else blk ++ ['\n'])
        existing.tStart existing.tEnd (b + AUTO_BEGIN.length) e
        (by omega) q2 q3
      exact ⟨mid, by rw [← hok]; exact hmid⟩

/-- Claim C1, amended: provided the END region marker is immediately
preceded by a newline, every successful `insert_task_block` or
`replace_task_block` leaves the bytes up to and including the BEGIN marker
and the bytes from the start of the END marker onward unchanged.  (A
sequence of such operations preserves the frame step by step whenever each
intermediate document satisfies the same newline condition; the
counterexample shows the condition cannot be dropped.) -/
theorem c1_frame_preservation_amended (content : Str) (b e : Nat)
    (hb : findSub content AUTO_BEGIN = some b)
    (he : findSub content AUTO_END = some e)
    (hnl : content.getD (e - 1) ' ' = '\n')
    (op : BoardOp) (out : Str) (hok : applyOp op content = .ok out) :
    FramePreserved content out := by
  cases op with
  | ins st bu blk =>
    exact ⟨b, e, hb, he, insert_frame hb he hnl (by exact hok)⟩
  | rep u blk =>
    exact ⟨b, e, hb, he, replace_frame hb he hnl (by exact hok)⟩

/-- The degenerate board of the C1 counterexample: both markers, in order,
but the heading line abuts the END marker with no newline. -/
def c1cexContent : Str := AUTO_BEGIN ++ "\n## Done".data ++ AUTO_END

/-- The output `insert_task_block` produces on the degenerate board. -/
def c1cexOut : Str :=
  c1cexContent.take 32 ++ "\nB\n".data ++ c1cexContent.drop 32

/-- Claim C1 as stated is false: on a board whose managed region does not
end with a newline, a successful insert splices inside the END marker, so
the bytes from the START of the END marker are not preserved. -/
theorem c1_counterexample :
    insert_task_block c1cexContent "Done".data none "B".data = .ok c1cexOut ∧
    ¬ FramePreserved c1cexContent c1cexOut := by
  constructor
  · rfl
  · rintro ⟨b, e, hb, he, mid, heq⟩
    have hb0 : b = 0 := by
      have h0 : findSub c1cexContent AUTO_BEGIN = some 0 := by decide
      exact Option.some.inj (hb.symm.trans h0)
    have he0 : e = 31 := by
      have h0 : findSub c1cexContent AUTO_END = some 31 := by decide
      exact Option.some.inj (he.symm.trans h0)
    subst hb0
    subst he0
    have hPlen : (c1cexContent.take (0 + AUTO_BEGIN.length)).length = 23 := by
      decide
    have hSlen : (c1cexContent.drop 31).length = 21 := by decide
    have hOlen : c1cexOut.length = 55 := by decide
    have hlen := congrArg List.length heq
    simp only [List.length_append, hPlen, hSlen, hOlen] at hlen
    have hmid : mid.length = 11 := by omega
    have heq2 : c1cexOut =
        (c1cexContent.take (0 + AUTO_BEGIN.length) ++ mid) ++
          c1cexContent.drop 31 := by
      rw [heq, List.append_assoc]
    have hdrop := congrArg
      (List.drop (c1cexContent.take (0 + AUTO_BEGIN.length) ++ mid).length)
      heq2
    rw [List.drop_left] at hdrop
    rw [List.length_append, hPlen, hmid] at hdrop
    have : c1cexOut.drop 34 ≠ c1cexContent.drop 31 := by decide
    exact this hdrop

/-- Witness for the amended C1 on the scaffold board. -/
theorem c1_frame_preservation_amended_witness :
    ∃ out, applyOp (BoardOp.ins "Todo".data none "B".data)
        build_default_board_markdown = .ok out ∧
      FramePreserved build_default_board_markdown out := by
  obtain ⟨out, hout⟩ : ∃ out,
      applyOp (BoardOp.ins "Todo".data none "B".data)
        build_default_board_markdown = .ok out := ⟨_, rfl⟩
  exact ⟨out, hout,
    c1_frame_preservation_amended build_default_board_markdown 128 205
      (by decide) (by decide) (by decide) _ out hout⟩

/-- Claim C2: when the BEGIN marker is absent, the END marker is absent, or
the (first) END marker is at or before the (first) BEGIN marker, locating
the region, parsing, inserting and replacing all fail with the
malformed-board error, and no text is produced. -/
theorem c2_malformed_markers_fail (content : Str)
    (h : findSub content AUTO_BEGIN = none ∨ findSub content AUTO_END = none ∨
      ∃ b e, findSub content AUTO_BEGIN = some b ∧
        findSub content AUTO_END = some e ∧ e ≤ b) :
    find_auto_area content = .error .malformed ∧
    parse_board content = .error .malformed ∧
    (∀ st bu blk, insert_task_block content st bu blk = .error .malformed) ∧
    (∀ u blk, replace_task_block content u blk = .error .malformed) := by
  have hfa : find_auto_area content = .error .malformed := by
    rcases h with h | h | ⟨b, e, hb, he, hle⟩
    · cases hE : findSub content AUTO_END <;>
        simp [find_auto_area, h, hE]
    · cases hB : findSub content AUTO_BEGIN <;>
        simp [find_auto_area, h, hB]
    · simp [find_auto_area, hb, he, if_pos hle]
  have hpb : parse_board content = .error .malformed := by
    unfold parse_board
    rw [hfa]
    rfl
  refine ⟨hfa, hpb, ?_, ?_⟩
  · intro st bu blk
    unfold insert_task_block
    rw [hpb]
    rfl
  · intro u blk
    unfold replace_task_block
    rw [hpb]
    rfl

/-- Witness for C2 on a markerless document. -/
theorem c2_malformed_markers_fail_witness :
    findSub "no markers here".data AUTO_BEGIN = none ∧
    parse_board "no markers here".data = .error .malformed ∧
    replace_task_block "no markers here".data "u".data "x".data
      = .error .malformed := by
  refine ⟨by decide, ?_, ?_⟩
  · exact (c2_malformed_markers_fail _ (Or.inl (by decide))).2.1
  · exact (c2_malformed_markers_fail _ (Or.inl (by decide))).2.2.2 _ _

/-- Claim C10: on a well-formed board with no heading for the (valid)
requested status, insertion fails with the missing-status-section error — a
failure mode distinct from both the malformed-board and task-not-found
errors. -/
theorem c10_missing_section_error (content : Str) (P : ParsedBoard)
    (hp : parse_board content = .ok P) (to_status st : Str)
    (hn : normalize_status to_status = some st)
    (hmiss : dictGet P.sections st = none)
    (bu : Option Str) (blk : Str) :
    insert_task_block content to_status bu blk
      = .error (.missingSection st) ∧
    BoardErr.missingSection st ≠ .malformed ∧
    (∀ u, BoardErr.missingSection st ≠ .taskNotFound u) := by
  refine ⟨?_, by simp, by intro u; simp⟩
  unfold insert_task_block
  rw [hp]
  simp only [Bind.bind, Except.bind]
  unfold findInsertionPoint
  rw [hn]
  dsimp only [Option.getD_some]
  rw [hmiss]

/-- Witness for C10 on a board whose region has no headings at all. -/
theorem c10_missing_section_error_witness :
    insert_task_block (AUTO_BEGIN ++ ['\n'] ++ AUTO_END) "Todo".data none
        "x".data = .error (.missingSection "Todo".data) :=
  (c10_missing_section_error (AUTO_BEGIN ++ ['\n'] ++ AUTO_END)
    ((parse_board (AUTO_BEGIN ++ ['\n'] ++ AUTO_END)).toOption.getD
      ⟨[], 0, 0, []⟩)
    (by rfl) "Todo".data "Todo".data (by decide) (by decide) none
    "x".data).1

/-- Claim C6: replace fails with the task-not-found error exactly when no
task block with the (lowercased) identifier exists in the parsed sections;
when the lookup finds a block, the result splices the new block text (with
a newline appended when missing) over exactly that block's span. -/
theorem c6_replace_semantics (content : Str) (P : ParsedBoard)
    (hp : parse_board content = .ok P) (u blk : Str) :
    (replace_task_block content u blk = .error (.taskNotFound u) ↔
      findTaskInSections P.sections (toLowerStr u) = none) ∧
    (∀ t, findTaskInSections P.sections (toLowerStr u) = some t →
      replace_task_block content u blk =
        .ok (content.take t.tStart ++
          (if endsWithChar blk '\n' then blk else blk ++ ['\n']) ++
          content.drop t.tEnd)) := by
  unfold replace_task_block
  rw [hp]
  simp only [Bind.bind, Except.bind]
  cases hf : findTaskInSections P.sections (toLowerStr u) with
  | none =>
    dsimp only
    exact ⟨by simp, by intro t ht; cases ht⟩
  | some t0 =>
    dsimp only
    refine ⟨⟨?_, ?_⟩, ?_⟩
    · intro hcontra
      simp [pure, Except.pure] at hcontra
    · intro hcontra
      cases hcontra
    · intro t ht
      obtain rfl := Option.some.inj ht
      rfl

/-- A concrete board with one task in `Todo`, for the C6 witness. -/
def c6board : Str :=
  (insert_task_block build_default_board_markdown "Todo".data none
    (build_task_block (some "aaaaaaaa-2222-3333-4444-555555555555".data)
      "Fix login bug".data "Todo".data [] [] []
      "ffffffff-0000-0000-0000-000000000000".data
      "2024-01-01T00:00:00Z".data)).toOption.getD []

/-- Witness for C6: a missing identifier errors; a present identifier
(queried in uppercase) is replaced at its span. -/
theorem c6_replace_semantics_witness :
    (replace_task_block c6board "99999999-9999-9999-9999-999999999999".data
      "x".data = .error
        (.taskNotFound "99999999-9999-9999-9999-999999999999".data)) ∧
    ∃ t, findTaskInSections
        ((parse_board c6board).toOption.getD ⟨[], 0, 0, []⟩).sections
        (toLowerStr "AAAAAAAA-2222-3333-4444-555555555555".data) = some t ∧
      replace_task_block c6board "AAAAAAAA-2222-3333-4444-555555555555".data
          "x".data =
        .ok (c6board.take t.tStart ++
          (if endsWithChar "x".data '\n' then "x".data
           else "x".data ++ ['\n']) ++
          c6board.drop t.tEnd) := by
  constructor
  · exact (c6_replace_semantics c6board _ rfl
      "99999999-9999-9999-9999-999999999999".data "x".data).1.mpr (by decide)
  · exact ⟨_, rfl,
      (c6_replace_semantics c6board _ rfl
        "AAAAAAAA-2222-3333-4444-555555555555".data "x".data).2 _ rfl⟩

/-! ## Lemmas: occurrences and `rfind` -/

theorem occursAt_decomp {s pat : Str} {i : Nat} (h : occursAt s pat i = true) :
    s = s.take i ++ pat ++ s.drop (i + pat.length) := by
  obtain ⟨rest, hrest⟩ := (List.isPrefixOf_iff_prefix).mp h
  have hrest2 : rest = s.drop (i + pat.length) := by
    have h1 : (pat ++ rest).drop pat.length = rest := List.drop_left _ _
    rw [hrest, List.drop_drop] at h1
    rw [← h1, Nat.add_comm i pat.length]
  conv_lhs => rw [← List.take_append_drop i s, ← hrest]
  rw [hrest2]
  simp [List.append_assoc]

theorem findSubAux_isSome (pat : Str) :
    ∀ (s : Str) (i j : Nat),
      (findSubAux pat s i).isSome = (findSubAux pat s j).isSome := by
  intro s
  induction s with
  | nil => intro i j; unfold findSubAux; split <;> simp
  | cons c t ih =>
    intro i j
    unfold findSubAux
    split
    · simp
    · exact ih (i + 1) (j + 1)

theorem occursAt_findSub {s pat : Str} :
    ∀ {i : Nat}, occursAt s pat i = true → (findSub s pat).isSome := by
  induction s with
  | nil =>
    intro i h
    unfold occursAt at h
    simp only [List.drop_nil] at h
    unfold findSub findSubAux
    rw [if_pos h]
    simp
  | cons c t ih =>
    intro i h
    cases i with
    | zero =>
      unfold occursAt at h
      simp only [List.drop] at h
      unfold findSub findSubAux
      rw [if_pos h]
      simp
    | succ i0 =>
      unfold occursAt at h
      simp only [List.drop_succ_cons] at h
      have ht : (findSub t pat).isSome := ih (i := i0) h
      unfold findSub findSubAux
      split
      · simp
      · rw [findSubAux_isSome pat t 1 0]
        exact ht

theorem hasSub_rfind {s pat : Str} (hne : pat ≠ [])
    (h : hasSub s pat = true) :
    ∃ i, rfindSub s pat = some i ∧ occursAt s pat i = true := by
  unfold hasSub at h
  obtain ⟨j, hj⟩ := Option.isSome_iff_exists.mp h
  have hocc : occursAt s pat j = true := findSub_some hj
  have hjlen : j + pat.length ≤ s.length := findSub_some_le hne hj
  have hmem : j ∈ (List.range (s.length + 1)).filter
      (fun i => occursAt s pat i) := by
    rw [List.mem_filter]
    refine ⟨List.mem_range.mpr ?_, hocc⟩
    have := List.length_pos.mpr hne
    omega
  have hne2 : (List.range (s.length + 1)).filter
      (fun i => occursAt s pat i) ≠ [] := by
    intro hcontra
    rw [hcontra] at hmem
    cases hmem
  unfold rfindSub
  cases hlast : ((List.range (s.length + 1)).filter
      (fun i => occursAt s pat i)).getLast? with
  | none =>
    rw [List.getLast?_eq_none_iff] at hlast
    exact absurd hlast hne2
  | some i =>
    have hmem2 := List.mem_of_getLast?_eq_some hlast
    rw [List.mem_filter] at hmem2
    exact ⟨i, rfl, by simpa using hmem2.2⟩

theorem hasSub_false_rfind {s pat : Str} (h : hasSub s pat = false) :
    rfindSub s pat = none := by
  unfold rfindSub
  have hfil : (List.range (s.length + 1)).filter
      (fun i => occursAt s pat i) = [] := by
    rw [List.filter_eq_nil]
    intro i _
    simp only [Bool.not_eq_true]
    by_contra hcontra
    rw [Bool.not_eq_false] at hcontra
    have := @occursAt_findSub s pat i hcontra
    unfold hasSub at h
    rw [h] at this
    cases this
  rw [hfil]
  rfl

/-- The normalized board path of `history_path_for_board`. -/
def normOf (rel : Str) : Str :=
  replaceBackslash (if rel.isEmpty then "Tasks/Boards/Board.md".data else rel)

/-- The basename component of `history_path_for_board`. -/
def baseNameOf (rel : Str) : Str :=
  let b := (((normOf rel).splitOn '/').getLast?).getD []
  if b.isEmpty then "Board.md".data else b

/-- The basename with its `.md` suffix removed. -/
def stemOf (rel : Str) : Str :=
  (baseNameOf rel).take ((baseNameOf rel).length - 3)

/-- The parent directory (the `"/".join(parts[:-1])` of the source). -/
def parentOf (rel : Str) : Str :=
  joinStr ['/'] (((normOf rel).splitOn '/').dropLast)

/-- Claim C9: the snapshot path is `<prefix>/History/Boards/<stem>.<ts>.md`
when the normalized board path contains a `/Boards/` segment and
`<parent>/History/<stem>.<ts>.md` otherwise, and a board write first
records the board's current content — the default scaffold when the board
file is absent — at that snapshot path, then the new content at the board
path. -/
theorem c9_history_snapshot (rel ts : Str) (fs : Fs) (next : Str)
    (hmd : 3 ≤ (baseNameOf rel).length ∧
      toLowerStr ((baseNameOf rel).drop ((baseNameOf rel).length - 3))
        = ".md".data) :
    (hasSub (normOf rel) "/Boards/".data = true →
      ∃ p rest, normOf rel = p ++ "/Boards/".data ++ rest ∧
        history_path_for_board rel ts =
          (if p.isEmpty then [] else p ++ ['/']) ++ "History/Boards/".data ++
            stemOf rel ++ ['.'] ++ ts ++ ".md".data) ∧
    (hasSub (normOf rel) "/Boards/".data = false →
      history_path_for_board rel ts =
        (if (parentOf rel).isEmpty then [] else parentOf rel ++ ['/']) ++
          "History/".data ++ stemOf rel ++ ['.'] ++ ts ++ ".md".data) ∧
    write_board_with_history fs rel ts next =
      [(history_path_for_board rel ts,
        (fsGet fs (boardPathKey rel)).getD build_default_board_markdown),
       (boardPathKey rel, next)] := by
  have hstamp : stampMd (baseNameOf rel) ts =
      stemOf rel ++ ['.'] ++ ts ++ ".md".data := by
    unfold stampMd stemOf
    rw [if_pos hmd]
  refine ⟨?_, ?_, rfl⟩
  · intro hsub
    obtain ⟨idx, hr, hocc⟩ := hasSub_rfind (by simp) hsub
    refine ⟨(normOf rel).take idx,
      (normOf rel).drop (idx + ("/Boards/".data).length), ?_, ?_⟩
    · exact occursAt_decomp hocc
    · unfold history_path_for_board
      rw [show replaceBackslash
          (if rel.isEmpty then "Tasks/Boards/Board.md".data else rel)
          = normOf rel from rfl]
      dsimp only
      rw [hr]
      dsimp only
      rw [show (if (((normOf rel).splitOn '/').getLast?.getD []).isEmpty
            then "Board.md".data
            else ((normOf rel).splitOn '/').getLast?.getD [])
          = baseNameOf rel from rfl]
      rw [hstamp]
      by_cases hpe : ((normOf rel).take idx).isEmpty
      · rw [if_pos hpe, if_pos hpe]
        simp [List.append_assoc]
      · rw [if_neg hpe, if_neg hpe]
        simp [List.append_assoc]
  · intro hsub
    have hr := hasSub_false_rfind hsub
    unfold history_path_for_board
    rw [show replaceBackslash
        (if rel.isEmpty then "Tasks/Boards/Board.md".data else rel)
        = normOf rel from rfl]
    dsimp only
    rw [hr]
    dsimp only
    rw [show (if (((normOf rel).splitOn '/').getLast?.getD []).isEmpty
          then "Board.md".data
          else ((normOf rel).splitOn '/').getLast?.getD [])
        = baseNameOf rel from rfl]
    rw [hstamp]
    rw [show joinStr ['/'] (((normOf rel).splitOn '/').dropLast)
        = parentOf rel from rfl]
    by_cases hpe : (parentOf rel).isEmpty
    · rw [if_pos hpe, if_pos hpe]
      simp [List.append_assoc]
    · rw [if_neg hpe, if_neg hpe]
      simp [List.append_assoc]

/-- Witness for C9 on the default board path. -/
theorem c9_history_snapshot_witness :
    (3 ≤ (baseNameOf "Tasks/Boards/Board.md".data).length ∧
      toLowerStr ((baseNameOf "Tasks/Boards/Board.md".data).drop
        ((baseNameOf "Tasks/Boards/Board.md".data).length - 3))
        = ".md".data) ∧
    hasSub (normOf "Tasks/Boards/Board.md".data) "/Boards/".data = true ∧
    ∃ p rest, normOf "Tasks/Boards/Board.md".data
        = p ++ "/Boards/".data ++ rest ∧
      history_path_for_board "Tasks/Boards/Board.md".data "TS".data =
        (if p.isEmpty then [] else p ++ ['/']) ++ "History/Boards/".data ++
          stemOf "Tasks/Boards/Board.md".data ++ ['.'] ++ "TS".data ++
          ".md".data := by
  refine ⟨by decide, by decide, ?_⟩
  exact (c9_history_snapshot "Tasks/Boards/Board.md".data "TS".data []
    "x".data (by decide)).1 (by decide)

/-! ## Lemmas and theorem for C8 -/

theorem prmStep_msgs {ev : Json} {meta : List (Str × Json)}
    {msgs : List SessionMessage} {st en : Option Str}
    {r : List (Str × Json) × List SessionMessage × Option Str × Option Str}
    (h : prmStep ev meta msgs st en = some r) :
    ∀ m ∈ r.2.1, m ∈ msgs ∨
      ∃ c, m.text = _redact (_flatten_message_content c) := by
  cases ev with
  | obj kvs =>
    unfold prmStep at h
    dsimp only at h
    split at h
    · -- payload is an object
      split at h
      · -- session_meta event
        obtain rfl := Option.some.inj h
        intro m hm
        exact Or.inl hm
      · split at h
        · obtain rfl := Option.some.inj h
          intro m hm
          exact Or.inl hm
        · split at h
          · obtain rfl := Option.some.inj h
            intro m hm
            exact Or.inl hm
          · split at h
            · -- role is a string
              split at h
              · -- user or assistant
                split at h
                · obtain rfl := Option.some.inj h
                  intro m hm
                  exact Or.inl hm
                · -- the append branch
                  obtain rfl := Option.some.inj h
                  intro m hm
                  rcases List.mem_cons.mp hm with hm | hm
                  · subst hm
                    exact Or.inr ⟨_, rfl⟩
                  · exact Or.inl hm
              · obtain rfl := Option.some.inj h
                intro m hm
                exact Or.inl hm
            · obtain rfl := Option.some.inj h
              intro m hm
              exact Or.inl hm
    · -- payload is a truthy non-object
      obtain rfl := Option.some.inj h
      intro m hm
      exact Or.inl hm
  | null => cases h
  | bool b => cases h
  | num q => cases h
  | str v => cases h
  | arr xs => cases h

theorem prmGo_messages :
    ∀ (lines : List (Option Json)) (meta : List (Str × Json))
      (msgs : List SessionMessage) (st en : Option Str) (res : RolloutParse),
      prmGo lines meta msgs st en = .ok res →
      (∀ m ∈ msgs, ∃ c, m.text = _redact (_flatten_message_content c)) →
      ∀ m ∈ res.messages,
        ∃ c, m.text = _redact (_flatten_message_content c) := by
  intro lines
  induction lines with
  | nil =>
    intro meta msgs st en res h hinv m hm
    unfold prmGo at h
    obtain rfl := Except.ok.inj h
    dsimp only at hm
    exact hinv m (List.mem_reverse.mp hm)
  | cons line rest ih =>
    intro meta msgs st en res h hinv m hm
    unfold prmGo at h
    cases line with
    | none => exact ih _ _ _ _ _ h hinv m hm
    | some ev =>
      dsimp only at h
      cases hstep : prmStep ev meta msgs st en with
      | none => rw [hstep] at h; cases h
      | some r =>
        rw [hstep] at h
        obtain ⟨m2, g2, s2, e2⟩ := r
        dsimp only at h
        refine ih _ _ _ _ _ h ?_ m hm
        intro m0 hm0
        rcases prmStep_msgs hstep m0 hm0 with hin | hP
        · exact hinv m0 hin
        · exact hP

/-- Claim C8: every message text produced by the session log reader has
the redaction substitutions already applied — each text is `_redact` of
the flattened content of its event, for every input, and the reader takes
no summarization flag at all. -/
theorem c8_redaction_applied (lines : List (Option Json))
    (res : RolloutParse) (hp : parse_rollout_messages lines = .ok res) :
    ∀ m ∈ res.messages,
      ∃ content, m.text = _redact (_flatten_message_content content) :=
  prmGo_messages lines [] [] none none res hp (by intro m hm; cases hm)

/-- A one-message rollout for the C8 witness. -/
def c8lines : List (Option Json) :=
  [some (.obj
    [ ("timestamp".data, .str "2024-01-01T00:00:00Z".data)
    , ("type".data, .str "response_item".data)
    , ("payload".data, .obj
        [ ("type".data, .str "message".data)
        , ("role".data, .str "user".data)
        , ("content".data, .str "hello".data) ]) ])]

/-- Witness for C8. -/
theorem c8_redaction_applied_witness :
    ∃ res, parse_rollout_messages c8lines = .ok res ∧
      ∀ m ∈ res.messages,
        ∃ content, m.text = _redact (_flatten_message_content content) := by
  obtain ⟨res, hres⟩ : ∃ res, parse_rollout_messages c8lines = .ok res :=
    ⟨_, rfl⟩
  exact ⟨res, hres, c8_redaction_applied c8lines res hres⟩

/-! ## Lemmas and theorem for C7 -/

theorem classRuns_nil {cls : Char → Bool} :
    ∀ {s : Str}, (∀ c ∈ s, cls c = false) → classRuns cls s = [] := by
  intro s
  induction s with
  | nil => intro _; simp [classRuns]
  | cons c t ih =>
    intro hall
    rw [classRuns]
    rw [if_neg (by rw [hall c (List.mem_cons_self _ _)]; simp)]
    exact ih (fun c2 hc2 => hall c2 (List.mem_cons_of_mem _ hc2))

/-- Claim C7 fails in the code: the "CJK" character class of `_tokenize`,
as the doubly-backslashed raw string actually denotes it, contains no CJK
character, so a text whose characters lie outside both classes — in
particular any pure-CJK text — produces an empty token set and a zero
Jaccard score against everything, contradicting both the claim and the
function's own docstring. -/
theorem c7_cjk_tokenization_bug (s : Str)
    (hc : ∀ c ∈ s, latinClass (Char.toLower c) = false ∧
      cjkClassAsWritten (Char.toLower c) = false) :
    _tokenize s = [] ∧ (∀ t, _jaccard (_tokenize s) t = 0) := by
  have hl : ∀ c2 ∈ toLowerStr s, latinClass c2 = false := by
    intro c2 hc2
    obtain ⟨c0, hc0, rfl⟩ := List.mem_map.mp hc2
    exact (hc c0 hc0).1
  have hk : ∀ c2 ∈ toLowerStr s, cjkClassAsWritten c2 = false := by
    intro c2 hc2
    obtain ⟨c0, hc0, rfl⟩ := List.mem_map.mp hc2
    exact (hc c0 hc0).2
  have htok : _tokenize s = [] := by
    unfold _tokenize
    dsimp only
    rw [classRuns_nil hl, classRuns_nil hk]
    rfl
  refine ⟨htok, ?_⟩
  intro t
  rw [htok]
  rfl

/-- Witness for C7 at the failing input: two texts sharing the unsegmented
CJK phrase 你好 tokenize to nothing and score zero. -/
theorem c7_cjk_tokenization_bug_witness :
    (∀ c ∈ ("你好".data),
      latinClass (Char.toLower c) = false ∧
        cjkClassAsWritten (Char.toLower c) = false) ∧
    _tokenize "你好".data = [] ∧
    _jaccard (_tokenize "你好".data) (_tokenize "你好任务".data) = 0 := by
  refine ⟨by decide, (c7_cjk_tokenization_bug "你好".data (by decide)).1,
    (c7_cjk_tokenization_bug "你好".data (by decide)).2 _⟩

/-! ## Lemmas and theorem for C4 -/

/-- Increment the old-files counter (the only effect of a
watermark-skipped file). -/
def bumpOld (s : LoopState) : LoopState :=
  { s with skipped_old := s.skipped_old + 1 }

theorem createUnassigned_bump (env : SyncEnv) (s : LoopState) (p : Json)
    (ref board : Str) :
    createUnassigned env (bumpOld s) p ref board
      = bumpOld (createUnassigned env s p ref board) := by
  unfold createUnassigned bumpOld
  dsimp only
  repeat' split
  all_goals rfl

theorem linkSessionStep_bump (cfg : SyncConfig) (env : SyncEnv) (mode : Str)
    (s : LoopState) (p : Json) (ref board : Str) :
    linkSessionStep cfg env mode (bumpOld s) p ref board
      = bumpOld (linkSessionStep cfg env mode s p ref board) := by
  unfold linkSessionStep createUnassigned bumpOld
  dsimp only
  repeat' split
  all_goals rfl

theorem linkSessionStep_bump2 (cfg : SyncConfig) (env : SyncEnv)
    (mode : Str) (sL sR : LoopState) (p : Json) (ref board : Str)
    (h : sL = bumpOld sR) :
    linkSessionStep cfg env mode sL p ref board
      = bumpOld (linkSessionStep cfg env mode sR p ref board) := by
  subst h
  exact linkSessionStep_bump cfg env mode sR p ref board

theorem syncStep_bump (cfg : SyncConfig) (env : SyncEnv) (lb : Bool)
    (mode : Str) (ib : Int) (s : LoopState) (r : Rollout) :
    syncStep cfg env lb mode ib (bumpOld s) r
      = bumpOld (syncStep cfg env lb mode ib s r) := by
  unfold syncStep
  cases hstat : r.stat with
  | none => rfl
  | some st =>
    dsimp only
    by_cases h1 : pyIntQ st.mtime < ib
    · rw [if_pos h1, if_pos h1]
      rfl
    · rw [if_neg h1, if_neg h1]
      by_cases h2 : 0 < cfg.stable_after_s ∧
          env.now - st.mtime < cfg.stable_after_s
      · rw [if_pos h2, if_pos h2]
        rfl
      · rw [if_neg h2, if_neg h2]
        cases hsid : _extract_session_id r.name with
        | none => rfl
        | some sid =>
          dsimp only
          have hart : artGet (bumpOld s).artifacts sid
              = artGet s.artifacts sid := rfl
          rw [hart]
          cases hskip : artGet s.artifacts sid with
          | none =>
            dsimp only
            cases hprm : parse_rollout_messages r.lines with
            | error e => rfl
            | ok pr =>
              dsimp only
              by_cases hlb : lb = true
              · rw [if_pos hlb, if_pos hlb]
                have hb2 : (bumpOld s).board_content = s.board_content := rfl
                rw [hb2]
                cases hbc : s.board_content with
                | none => rfl
                | some board =>
                  dsimp only
                  exact linkSessionStep_bump2 cfg env mode _ _ _ _ board rfl
              · rw [if_neg hlb, if_neg hlb]
                rfl
          | some stored =>
            cases stored with
            | none =>
              dsimp only
              cases hprm : parse_rollout_messages r.lines with
              | error e => rfl
              | ok pr =>
                dsimp only
                by_cases hlb : lb = true
                · rw [if_pos hlb, if_pos hlb]
                  have hb2 : (bumpOld s).board_content = s.board_content := rfl
                  rw [hb2]
                  cases hbc : s.board_content with
                  | none => rfl
                  | some board =>
                    dsimp only
                    exact linkSessionStep_bump2 cfg env mode _ _ _ _ board rfl
                · rw [if_neg hlb, if_neg hlb]
                  rfl
            | some j =>
              cases j with
              | null =>
                dsimp only
                cases hprm : parse_rollout_messages r.lines with
                | error e => rfl
                | ok pr =>
                  dsimp only
                  by_cases hlb : lb = true
                  · rw [if_pos hlb, if_pos hlb]
                    have hb2 : (bumpOld s).board_content = s.board_content := rfl
                    rw [hb2]
                    cases hbc : s.board_content with
                    | none => rfl
                    | some board =>
                      dsimp only
                      exact linkSessionStep_bump2 cfg env mode _ _ _ _ board rfl
                  · rw [if_neg hlb, if_neg hlb]
                    rfl
              | bool b =>
                dsimp only
                by_cases hlb : lb = true
                · rw [if_pos hlb, if_pos hlb]
                  have hb2 : (bumpOld s).board_content = s.board_content := rfl
                  rw [hb2]
                  cases hbc : s.board_content with
                  | none => rfl
                  | some board =>
                    dsimp only
                    exact linkSessionStep_bump2 cfg env mode _ _ _ _ board rfl
                · rw [if_neg hlb, if_neg hlb]
                  rfl
              | num q =>
                dsimp only
                by_cases hlb : lb = true
                · rw [if_pos hlb, if_pos hlb]
                  have hb2 : (bumpOld s).board_content = s.board_content := rfl
                  rw [hb2]
                  cases hbc : s.board_content with
                  | none => rfl
                  | some board =>
                    dsimp only
                    exact linkSessionStep_bump2 cfg env mode _ _ _ _ board rfl
                · rw [if_neg hlb, if_neg hlb]
                  rfl
              | str t =>
                dsimp only
                by_cases hlb : lb = true
                · rw [if_pos hlb, if_pos hlb]
                  have hb2 : (bumpOld s).board_content = s.board_content := rfl
                  rw [hb2]
                  cases hbc : s.board_content with
                  | none => rfl
                  | some board =>
                    dsimp only
                    exact linkSessionStep_bump2 cfg env mode _ _ _ _ board rfl
                · rw [if_neg hlb, if_neg hlb]
                  rfl
              | arr a =>
                dsimp only
                by_cases hlb : lb = true
                · rw [if_pos hlb, if_pos hlb]
                  have hb2 : (bumpOld s).board_content = s.board_content := rfl
                  rw [hb2]
                  cases hbc : s.board_content with
                  | none => rfl
                  | some board =>
                    dsimp only
                    exact linkSessionStep_bump2 cfg env mode _ _ _ _ board rfl
                · rw [if_neg hlb, if_neg hlb]
                  rfl
              | obj o =>
                dsimp only
                by_cases hlb : lb = true
                · rw [if_pos hlb, if_pos hlb]
                  have hb2 : (bumpOld s).board_content = s.board_content := rfl
                  rw [hb2]
                  cases hbc : s.board_content with
                  | none => rfl
                  | some board =>
                    dsimp only
                    exact linkSessionStep_bump2 cfg env mode _ _ _ _ board rfl
                · rw [if_neg hlb, if_neg hlb]
                  rfl

theorem foldl_syncStep_bump (cfg : SyncConfig) (env : SyncEnv) (lb : Bool)
    (mode : Str) (ib : Int) :
    ∀ (l : List Rollout) (s : LoopState),
      l.foldl (syncStep cfg env lb mode ib) (bumpOld s)
        = bumpOld (l.foldl (syncStep cfg env lb mode ib) s) := by
  intro l
  induction l with
  | nil => intro s; rfl
  | cons r t ih =>
    intro s
    rw [List.foldl_cons, List.foldl_cons, syncStep_bump]
    exact ih _

theorem syncStep_old {cfg : SyncConfig} {env : SyncEnv} {lb : Bool}
    {mode : Str} {ib : Int} {s : LoopState} {r : Rollout} {st : Stat}
    (hstat : r.stat = some st) (hold : pyIntQ st.mtime < ib) :
    syncStep cfg env lb mode ib s r = bumpOld s := by
  unfold syncStep
  rw [hstat]
  dsimp only
  rw [if_pos hold]
  rfl

/-- Claim C4: a raw log file whose (truncated) modification time is below
the persisted watermark contributes nothing to the pass but the
skipped-old counter: dropping it from the scan changes no artifact write,
no board content, no history write, and no other counter. -/
theorem c4_watermark_skips_file (cfg : SyncConfig) (env : SyncEnv)
    (boardFile : Option Str) (artifacts0 : List (Str × Option Json))
    (state : SessionsState) (pre post : List Rollout) (r : Rollout)
    (st : Stat) (hstat : r.stat = some st)
    (hold : pyIntQ st.mtime < state.ignore_before_epoch) :
    (sync_codex_sessions cfg env boardFile artifacts0 state
        (pre ++ r :: post)).skipped_old =
      (sync_codex_sessions cfg env boardFile artifacts0 state
        (pre ++ post)).skipped_old + 1 ∧
    (sync_codex_sessions cfg env boardFile artifacts0 state
        (pre ++ r :: post)).written =
      (sync_codex_sessions cfg env boardFile artifacts0 state
        (pre ++ post)).written ∧
    (sync_codex_sessions cfg env boardFile artifacts0 state
        (pre ++ r :: post)).artifactWrites =
      (sync_codex_sessions cfg env boardFile artifacts0 state
        (pre ++ post)).artifactWrites ∧
    (sync_codex_sessions cfg env boardFile artifacts0 state
        (pre ++ r :: post)).boardContent =
      (sync_codex_sessions cfg env boardFile artifacts0 state
        (pre ++ post)).boardContent ∧
    (sync_codex_sessions cfg env boardFile artifacts0 state
        (pre ++ r :: post)).boardChanged =
      (sync_codex_sessions cfg env boardFile artifacts0 state
        (pre ++ post)).boardChanged ∧
    (sync_codex_sessions cfg env boardFile artifacts0 state
        (pre ++ r :: post)).historyWrites =
      (sync_codex_sessions cfg env boardFile artifacts0 state
        (pre ++ post)).historyWrites ∧
    (sync_codex_sessions cfg env boardFile artifacts0 state
        (pre ++ r :: post)).linked_updates =
      (sync_codex_sessions cfg env boardFile artifacts0 state
        (pre ++ post)).linked_updates ∧
    (sync_codex_sessions cfg env boardFile artifacts0 state
        (pre ++ r :: post)).created_unassigned =
      (sync_codex_sessions cfg env boardFile artifacts0 state
        (pre ++ post)).created_unassigned ∧
    (sync_codex_sessions cfg env boardFile artifacts0 state
        (pre ++ r :: post)).errors =
      (sync_codex_sessions cfg env boardFile artifacts0 state
        (pre ++ post)).errors := by
  unfold sync_codex_sessions
  dsimp only
  rw [List.foldl_append, List.foldl_append, List.foldl_cons,
    syncStep_old hstat hold, foldl_syncStep_bump]
  simp [bumpOld]

def c4st : Stat := { mtime := 5, size := 10 }

def c4r : Rollout :=
  { name := ("rollout-2024-01-01T00-00-00-"
      ++ "01234567-89ab-cdef-0123-456789abcdef.jsonl").data
  , pathStr := "/s/r.jsonl".data
  , stat := some c4st
  , lines := [] }

def c4state : SessionsState :=
  { schema := "ai-tasks/sessions-state@v1".data
  , initialized_at := "2024-01-01T00:00:00Z".data
  , ignore_before_epoch := 100
  , sources := [] }

def c4env : SyncEnv :=
  { now := 1000
  , nowIso := "2024-06-01T00:00:00Z".data
  , histTs := "20240601T000000Z".data
  , parseIso := fun _ => none
  , aiSummarize := fun _ => none
  , aiMatch := fun _ _ => (none, none)
  , uuidAt := fun _ => "00000000-0000-0000-0000-000000000000".data }

theorem c4_watermark_skips_file_witness :
    c4r.stat = some c4st ∧
    pyIntQ c4st.mtime < c4state.ignore_before_epoch ∧
    ((sync_codex_sessions {} c4env none [] c4state [c4r]).skipped_old
      = (sync_codex_sessions {} c4env none [] c4state []).skipped_old + 1) ∧
    ((sync_codex_sessions {} c4env none [] c4state [c4r]).historyWrites
      = (sync_codex_sessions {} c4env none [] c4state []).historyWrites) := by
  have h := c4_watermark_skips_file {} c4env none [] c4state [] [] c4r c4st
    rfl (by decide)
  exact ⟨rfl, by decide, h.1, h.2.2.2.2.2.1⟩

theorem findTaskInSections_uuid {secs : List (Str × BSection)} {u : Str}
    {t : TaskBlock} (h : findTaskInSections secs u = some t) : t.uuid = u := by
  induction secs with
  | nil => cases h
  | cons kv0 rest ih =>
    unfold findTaskInSections at h
    cases hf : kv0.2.tasks.find? (fun tb => tb.uuid = u) with
    | some t0 =>
      rw [show (kv0.2.tasks.find? (fun tb => decide (tb.uuid = u))) = some t0 from hf] at h
      obtain rfl := Option.some.inj h
      have hb := List.find?_some hf
      simp only [decide_eq_true_eq] at hb
      exact hb
    | none =>
      rw [show (kv0.2.tasks.find? (fun tb => decide (tb.uuid = u))) = none from hf] at h
      exact ih h

theorem replace_found {content : Str} {P : ParsedBoard}
    (hp : parse_board content = .ok P) {u : Str} {t : TaskBlock}
    (hfind : findTaskInSections P.sections (toLowerStr u) = some t)
    (blk : Str) :
    replace_task_block content u blk =
      .ok (content.take t.tStart ++
        (if endsWithChar blk '\n' then blk else blk ++ ['\n']) ++
        content.drop t.tEnd) := by
  unfold replace_task_block
  rw [hp]
  simp only [Bind.bind, Except.bind]
  rw [hfind]
  rfl

theorem createUnassigned_linked (env : SyncEnv) (s : LoopState) (p : Json)
    (ref board : Str) :
    (createUnassigned env s p ref board).linked_updates = s.linked_updates := by
  unfold createUnassigned
  dsimp only
  repeat' split
  all_goals rfl

/-- Claim C5: once a candidate uuid is produced, the link decision is the
threshold comparison of the producing method: a heuristic match links
exactly when its Jaccard score reaches `match_threshold`, an AI match
exactly when the returned confidence reaches `ai_confidence_threshold`,
and an AI match whose confidence is absent counts as confidence 0, so it
never links under a positive AI threshold. -/
theorem c5_link_thresholds (cfg : SyncConfig) (env : SyncEnv)
    (s : LoopState) (payload : Json) (ref board : Str) (P : ParsedBoard)
    (hns : hasSub board ref = false)
    (hp : parse_board board = .ok P) :
    (∀ v sc t, _best_task_match board payload = .ok (some v, sc) →
      v.isEmpty = false → toLowerStr v = v →
      findTaskInSections P.sections v = some t →
      ((linkSessionStep cfg env "heuristic".data s payload ref board).linked_updates
          = s.linked_updates + 1 ↔ cfg.match_threshold ≤ sc)) ∧
    (∀ u conf t, env.aiMatch board payload = (some u, conf) →
      u.isEmpty = false → toLowerStr u = u →
      findTaskInSections P.sections u = some t →
      ((linkSessionStep cfg env "ai".data s payload ref board).linked_updates
          = s.linked_updates + 1 ↔ cfg.ai_confidence_threshold ≤ conf.getD 0)) ∧
    (∀ u, env.aiMatch board payload = (some u, (none : Option ℚ)) →
      0 < cfg.ai_confidence_threshold →
      (linkSessionStep cfg env "ai".data s payload ref board).linked_updates
          = s.linked_updates) := by
  refine ⟨?_, ?_, ?_⟩
  · intro v sc t hbm hne hlow hfind
    cases v with
    | nil => simp at hne
    | cons c vs =>
      have ht := findTaskInSections_uuid hfind
      have hfind2 : findTaskInSections P.sections (toLowerStr t.uuid) = some t := by
        rw [ht, hlow]; exact hfind
      have hrepl := replace_found hp hfind2 (add_session_ref_to_block t.raw ref)
      have e1 : ("heuristic".data = "ai".data ∨ "heuristic".data = "hybrid".data)
          = False := eq_false (by decide)
      unfold linkSessionStep
      rw [if_neg (by simp [hns]), hbm]
      by_cases hth : cfg.match_threshold ≤ sc
      · simp [e1, hp, hfind, hrepl, hth]
      · simp [e1, hp, hfind, hrepl, hth, createUnassigned_linked]
  · intro u conf t hai hne hlow hfind
    cases u with
    | nil => simp at hne
    | cons c us =>
      have ht := findTaskInSections_uuid hfind
      have hfind2 : findTaskInSections P.sections (toLowerStr t.uuid) = some t := by
        rw [ht, hlow]; exact hfind
      have hrepl := replace_found hp hfind2 (add_session_ref_to_block t.raw ref)
      have e2 : ("ai".data = "heuristic".data ∨ "ai".data = "hybrid".data)
          = False := eq_false (by decide)
      have e3 : ((some "ai".data : Option Str) = some "heuristic".data)
          = False := eq_false (by decide)
      have e4 : ("ai".data = "ai".data ∨ "ai".data = "hybrid".data) = True :=
        eq_true (by decide)
      unfold linkSessionStep
      rw [if_neg (by simp [hns]), hai]
      by_cases hth : cfg.ai_confidence_threshold ≤ conf.getD 0
      · simp [e2, e3, e4, hp, hfind, hrepl, hth]
      · simp [e2, e3, e4, hp, hfind, hrepl, hth, createUnassigned_linked]
  · intro u hai hpos
    have hth : ¬ cfg.ai_confidence_threshold ≤ (0 : ℚ) := not_le.mpr hpos
    have e2 : ("ai".data = "heuristic".data ∨ "ai".data = "hybrid".data)
        = False := eq_false (by decide)
    have e3 : ((some "ai".data : Option Str) = some "heuristic".data)
        = False := eq_false (by decide)
    have e4 : ("ai".data = "ai".data ∨ "ai".data = "hybrid".data) = True :=
      eq_true (by decide)
    unfold linkSessionStep
    rw [if_neg (by simp [hns]), hai]
    cases u with
    | nil => simp [e2, e4, createUnassigned_linked]
    | cons c us => simp [e2, e3, e4, hth, createUnassigned_linked]

/-- Fuel-based structural twin of `classRuns`, for concrete evaluation. -/
def classRunsF : Nat → (Char → Bool) → Str → List Str
  | 0, _, _ => []
  | _ + 1, _, [] => []
  | n + 1, cls, c :: t =>
    if cls c then (c :: t.takeWhile cls) :: classRunsF n cls (t.dropWhile cls)
    else classRunsF n cls t

theorem classRuns_eqF : ∀ (n : Nat) (cls : Char → Bool) (s : Str),
    s.length ≤ n → classRuns cls s = classRunsF n cls s := by
  intro n
  induction n with
  | zero =>
    intro cls s hs
    cases s with
    | nil => simp [classRuns, classRunsF]
    | cons c t => simp at hs
  | succ n ih =>
    intro cls s hs
    cases s with
    | nil => simp [classRuns, classRunsF]
    | cons c t =>
      rw [classRuns, classRunsF]
      have hlen : t.length ≤ n := by
        simp only [List.length_cons] at hs
        omega
      by_cases hc : cls c = true
      · rw [if_pos hc, if_pos hc, ih _ _
          (le_trans (List.dropWhile_sublist cls).length_le hlen)]
      · rw [if_neg hc, if_neg hc, ih _ _ hlen]

/-- `_tokenize` with `classRuns` replaced by its fuelled twin. -/
def _tokenizeF (s : Str) : List Str :=
  let sl := toLowerStr s
  let raw1 := (classRunsF sl.length latinClass sl).filter (fun r => 2 ≤ r.length)
  let raw2 := (classRunsF sl.length cjkClassAsWritten sl).flatMap (fun chunk =>
    if chunk.length = 1 then [chunk]
    else (if chunk.length ≤ 6 then [chunk] else []) ++ bigrams chunk)
  dedupPreserve (raw1 ++ raw2) []

theorem _tokenize_eqF (s : Str) : _tokenize s = _tokenizeF s := by
  unfold _tokenize _tokenizeF
  dsimp only
  rw [classRuns_eqF _ _ _ le_rfl, classRuns_eqF _ _ _ le_rfl]

/-- `_best_task_match` with `_tokenize` replaced by its fuelled twin. -/
def _best_task_matchF (board_content : Str) (payload : Json) :
    Except BoardErr (Option Str × ℚ) := do
  let parsed ← parse_board board_content
  let tasks := allTasks parsed
  if tasks.isEmpty then return (none, 0)
  let s_tokens := _tokenizeF (_session_text payload)
  if s_tokens.isEmpty then return (none, 0)
  return tasks.foldl (fun acc t =>
    let score := _jaccard s_tokens (_tokenizeF (joinStr [' '] (t.title :: t.tags)))
    if acc.2 < score then (some t.uuid, score) else acc)
    ((none : Option Str), (0 : ℚ))

theorem _best_task_match_eqF (b : Str) (p : Json) :
    _best_task_match b p = _best_task_matchF b p := by
  unfold _best_task_match _best_task_matchF
  simp only [_tokenize_eqF]

theorem exceptOk_of_toOption {e : Except BoardErr (Option Str × ℚ)}
    {a : Option Str × ℚ} (h : e.toOption = some a) : e = .ok a := by
  cases e with
  | ok b => rw [Option.some.inj h]
  | error x => cases h

def c5board : Str :=
  (insert_task_block build_default_board_markdown "Todo".data none
    (build_task_block (some "bbbbbbbb-2222-3333-4444-555555555555".data)
      "Fix login bug".data "Todo".data ["auth".data] [] []
      "ffffffff-0000-0000-0000-000000000000".data
      "2024-01-01T00:00:00Z".data)).toOption.getD []

def c5payload : Json := .obj [("summary".data, .str "Fix login bug auth".data)]

def c5ref : Str := "codex:0123".data

def c5v : Str := "bbbbbbbb-2222-3333-4444-555555555555".data

def c5P : ParsedBoard := (parse_board c5board).toOption.getD ⟨[], 0, 0, []⟩

def c5t : TaskBlock :=
  (findTaskInSections c5P.sections c5v).getD ⟨[], [], [], [], [], 0, 0⟩

def c5init : LoopState := { board_content := none, artifacts := [] }

def c5envA : SyncEnv :=
  { now := 1000
  , nowIso := "2024-06-01T00:00:00Z".data
  , histTs := "20240601T000000Z".data
  , parseIso := fun _ => none
  , aiSummarize := fun _ => none
  , aiMatch := fun _ _ => (some c5v, some (9 / 10))
  , uuidAt := fun _ => "00000000-0000-0000-0000-000000000000".data }

def c5envB : SyncEnv :=
  { c5envA with aiMatch := fun _ _ => (some c5v, none) }

theorem c5_link_thresholds_witness :
    ((linkSessionStep {} c5envA "heuristic".data c5init c5payload c5ref
        c5board).linked_updates = c5init.linked_updates + 1) ∧
    ((linkSessionStep {} c5envA "ai".data c5init c5payload c5ref
        c5board).linked_updates = c5init.linked_updates + 1) ∧
    ((linkSessionStep {} c5envB "ai".data c5init c5payload c5ref
        c5board).linked_updates = c5init.linked_updates) := by
  have h1 := c5_link_thresholds {} c5envA c5init c5payload c5ref c5board c5P
    rfl rfl
  have h2 := c5_link_thresholds {} c5envB c5init c5payload c5ref c5board c5P
    rfl rfl
  have hbm : _best_task_match c5board c5payload = .ok (some c5v, mkRat 6 6) := by
    rw [_best_task_match_eqF]
    rfl
  refine ⟨(h1.1 c5v (mkRat 6 6) c5t hbm rfl rfl rfl).mpr ?_,
          (h1.2.1 c5v (some (9 / 10)) c5t rfl rfl rfl rfl).mpr ?_,
          h2.2.2 c5v rfl ?_⟩
  · show (18 : ℚ) / 100 ≤ mkRat 6 6
    rw [Rat.mkRat_eq_div]
    norm_num
  · show (65 : ℚ) / 100 ≤ (some ((9 : ℚ) / 10)).getD 0
    simp only [Option.getD_some]
    norm_num
  · show (0 : ℚ) < 65 / 100
    norm_num
/-- The loop invariant of a no-new-work pass: the in-memory board and the
artifact store are untouched. -/
def c3Inv (board : Str) (arts : List (Str × Option Json)) (s : LoopState) :
    Prop :=
  s.board_content = some board ∧ s.board_changed = false ∧
  s.artifacts = arts ∧ s.artifactWrites = []

theorem syncStep_inv (cfg : SyncConfig) (env : SyncEnv) (mode : Str)
    (ib : Int) {board : Str} {arts : List (Str × Option Json)}
    {s : LoopState} {r : Rollout} (hInv : c3Inv board arts s)
    (hr : ∀ sid, _extract_session_id r.name = some sid →
      (∃ j, artGet arts sid = some (some j) ∧ j ≠ Json.null) ∧
      hasSub board ("codex:".data ++ sid) = true) :
    c3Inv board arts (syncStep cfg env true mode ib s r) := by
  obtain ⟨hbc, hchg, harts, haw⟩ := hInv
  unfold syncStep
  cases hstat : r.stat with
  | none => exact ⟨hbc, hchg, harts, haw⟩
  | some st =>
    dsimp only
    by_cases h1 : pyIntQ st.mtime < ib
    · rw [if_pos h1]
      exact ⟨hbc, hchg, harts, haw⟩
    · rw [if_neg h1]
      by_cases h2 : 0 < cfg.stable_after_s ∧
          env.now - st.mtime < cfg.stable_after_s
      · rw [if_pos h2]
        exact ⟨hbc, hchg, harts, haw⟩
      · rw [if_neg h2]
        cases hsid : _extract_session_id r.name with
        | none => exact ⟨hbc, hchg, harts, haw⟩
        | some sid =>
          dsimp only
          obtain ⟨⟨j, hart, hj⟩, hsub⟩ := hr sid hsid
          have hart2 : artGet s.artifacts sid = some (some j) := by
            rw [harts]
            exact hart
          rw [hart2]
          have key : ∀ (p : Json),
              linkSessionStep cfg env mode
                { s with skipped_existing := s.skipped_existing + 1
                       , board_content := some board } p
                ("codex:".data ++ sid) board
              = { s with skipped_existing := s.skipped_existing + 1
                       , board_content := some board
                       , skipped_already_linked :=
                           s.skipped_already_linked + 1 } := by
            intro p
            unfold linkSessionStep
            rw [if_pos hsub]
          cases j with
          | null => exact absurd rfl hj
          | bool b =>
      dsimp only
      rw [hbc]
      dsimp only
      rw [if_pos (rfl : true = true), key]
      exact ⟨rfl, hchg, harts, haw⟩
          | num q =>
      dsimp only
      rw [hbc]
      dsimp only
      rw [if_pos (rfl : true = true), key]
      exact ⟨rfl, hchg, harts, haw⟩
          | str v =>
      dsimp only
      rw [hbc]
      dsimp only
      rw [if_pos (rfl : true = true), key]
      exact ⟨rfl, hchg, harts, haw⟩
          | arr a =>
      dsimp only
      rw [hbc]
      dsimp only
      rw [if_pos (rfl : true = true), key]
      exact ⟨rfl, hchg, harts, haw⟩
          | obj o =>
      dsimp only
      rw [hbc]
      dsimp only
      rw [if_pos (rfl : true = true), key]
      exact ⟨rfl, hchg, harts, haw⟩

theorem foldl_syncStep_inv (cfg : SyncConfig) (env : SyncEnv) (mode : Str)
    (ib : Int) {board : Str} {arts : List (Str × Option Json)} :
    ∀ (l : List Rollout) (s : LoopState),
      (∀ r ∈ l, ∀ sid, _extract_session_id r.name = some sid →
        (∃ j, artGet arts sid = some (some j) ∧ j ≠ Json.null) ∧
        hasSub board ("codex:".data ++ sid) = true) →
      c3Inv board arts s →
      c3Inv board arts (l.foldl (syncStep cfg env true mode ib) s) := by
  intro l
  induction l with
  | nil => intro s _ hInv; exact hInv
  | cons r t ih =>
    intro s hl hInv
    rw [List.foldl_cons]
    exact ih _ (fun r2 hm => hl r2 (List.mem_cons_of_mem _ hm))
      (syncStep_inv cfg env mode ib hInv (hl r (List.mem_cons_self _ _)))

/-- Claim C3: a pass in which every discovered session already has a valid
non-null artifact and its reference token already occurs in the (parsable)
board performs no board mutation, writes no artifact, and leaves the board
text as it was; and in every pass whatsoever, the history-snapshot write
happens only when the board changed. -/
theorem c3_sync_idempotent (cfg : SyncConfig) (env : SyncEnv) (board : Str)
    (artifacts0 : List (Str × Option Json)) (state : SessionsState)
    (rollouts : List Rollout) (P : ParsedBoard)
    (hlb : cfg.link_board = true)
    (hp : parse_board board = .ok P)
    (hr : ∀ r ∈ rollouts, ∀ sid, _extract_session_id r.name = some sid →
      (∃ j, artGet artifacts0 sid = some (some j) ∧ j ≠ Json.null) ∧
      hasSub board ("codex:".data ++ sid) = true) :
    ((sync_codex_sessions cfg env (some board) artifacts0 state
        rollouts).boardChanged = false ∧
     (sync_codex_sessions cfg env (some board) artifacts0 state
        rollouts).boardContent = some board ∧
     (sync_codex_sessions cfg env (some board) artifacts0 state
        rollouts).artifactWrites = [] ∧
     (sync_codex_sessions cfg env (some board) artifacts0 state
        rollouts).historyWrites = []) ∧
    (∀ (cfg2 : SyncConfig) (env2 : SyncEnv) (bf : Option Str)
       (arts : List (Str × Option Json)) (st2 : SessionsState)
       (rs : List Rollout),
      (sync_codex_sessions cfg2 env2 bf arts st2 rs).boardChanged = false →
      (sync_codex_sessions cfg2 env2 bf arts st2 rs).historyWrites = []) := by
  constructor
  · unfold sync_codex_sessions
    dsimp only [Option.getD]
    rw [hlb]
    rw [if_pos (rfl : true = true), hp]
    dsimp only
    obtain ⟨i1, i2, i3, i4⟩ := foldl_syncStep_inv cfg env _ _ rollouts
      { board_content := some board, artifacts := artifacts0 } hr
      ⟨rfl, rfl, rfl, rfl⟩
    refine ⟨i2, i1, i4, ?_⟩
    rw [if_neg ?_]
    intro hc
    rw [i2] at hc
    exact Bool.false_ne_true hc.2
  · intro cfg2 env2 bf arts st2 rs h
    unfold sync_codex_sessions at h ⊢
    dsimp only at h ⊢
    rw [if_neg ?_]
    intro hc
    rw [h] at hc
    exact Bool.false_ne_true hc.2

def c3sid : Str := "01234567-89ab-cdef-0123-456789abcdef".data

def c3board : Str :=
  (insert_task_block build_default_board_markdown "Todo".data none
    (build_task_block (some "bbbbbbbb-2222-3333-4444-555555555555".data)
      "Fix login bug".data "Todo".data []
      ("from codex:".data ++ c3sid) [] 
      "ffffffff-0000-0000-0000-000000000000".data
      "2024-01-01T00:00:00Z".data)).toOption.getD []

def c3P : ParsedBoard := (parse_board c3board).toOption.getD ⟨[], 0, 0, []⟩

def c3arts : List (Str × Option Json) :=
  [(c3sid, some (Json.obj [("id".data, Json.str ("codex:".data ++ c3sid))]))]

def c3r : Rollout :=
  { name := ("rollout-2024-01-01T00-00-00-".data ++ c3sid ++ ".jsonl".data)
  , pathStr := "/s/r.jsonl".data
  , stat := some { mtime := 500, size := 10 }
  , lines := [] }

def c3state : SessionsState :=
  { schema := "ai-tasks/sessions-state@v1".data
  , initialized_at := "2024-01-01T00:00:00Z".data
  , ignore_before_epoch := 100
  , sources := [] }

def c3env : SyncEnv :=
  { now := 1000
  , nowIso := "2024-06-01T00:00:00Z".data
  , histTs := "20240601T000000Z".data
  , parseIso := fun _ => none
  , aiSummarize := fun _ => none
  , aiMatch := fun _ _ => (none, none)
  , uuidAt := fun _ => "00000000-0000-0000-0000-000000000000".data }

theorem c3_sync_idempotent_witness :
    (sync_codex_sessions {} c3env (some c3board) c3arts c3state
      [c3r]).boardChanged = false ∧
    (sync_codex_sessions {} c3env (some c3board) c3arts c3state
      [c3r]).boardContent = some c3board ∧
    (sync_codex_sessions {} c3env (some c3board) c3arts c3state
      [c3r]).artifactWrites = [] ∧
    (sync_codex_sessions {} c3env (some c3board) c3arts c3state
      [c3r]).historyWrites = [] := by
  have h := c3_sync_idempotent {} c3env c3board c3arts c3state [c3r] c3P
    rfl rfl ?hr
  case hr =>
    intro r hm sid hsid
    obtain rfl := List.mem_singleton.mp hm
    have hx : _extract_session_id c3r.name = some c3sid := rfl
    rw [hx] at hsid
    obtain rfl := Option.some.inj hsid
    refine ⟨⟨Json.obj [("id".data, Json.str ("codex:".data ++ c3sid))],
      rfl, fun hne => Json.noConfusion hne⟩, rfl⟩
  exact ⟨h.1.1, h.1.2.1, h.1.2.2.1, h.1.2.2.2⟩

end AiTasks
